import Mathlib

/-!
# Content creation pipeline of the `repose` command-line tool

A shallow embedding of `command.go` (`processFileName`, `defaultContent`,
`createNewContent`, `openFileInEditor`, `SetRootPath`) together with the
library routines these call, followed by the properties proved about them.

Go strings are modelled as lists of characters (`List Char`): every routine
below scans for ASCII bytes only (`.`, `/`, `-`, `_`, the placeholder
tokens), and on well-formed UTF-8 a byte scan and a code point scan find the
same positions. The Unicode tables behind the title caser of
`golang.org/x/text/cases` are a parameter (`CaseData`) of `processFileName`
and of everything that calls it.
-/

set_option autoImplicit false

namespace Repose

/-- A Go string. -/
abbrev Str := List Char

/-! ## Library routines (`strings`, `path/filepath`, `unicode`, `x/text/cases`) -/

/-- Go `strings.HasPrefix(s, p)`:
`len(s) >= len(p) && s[:len(p)] == p`. -/
def HasPrefix (s p : Str) : Bool :=
  p.length ≤ s.length && s.take p.length == p

/-- Go `strings.HasSuffix(s, suffix)`:
`len(s) >= len(suffix) && s[len(s)-len(suffix):] == suffix`. -/
def HasSuffix (s suffix : Str) : Bool :=
  suffix.length ≤ s.length && s.drop (s.length - suffix.length) == suffix

/-- Go `strings.TrimSuffix(s, suffix)`: `s` without the trailing `suffix`
when it has one, `s` itself otherwise. -/
def TrimSuffix (s suffix : Str) : Str :=
  if HasSuffix s suffix then s.take (s.length - suffix.length) else s

/-- Go `strings.Contains(s, substr)`. -/
def Contains : Str → Str → Bool
  | [], sub => HasPrefix [] sub
  | c :: cs, sub => HasPrefix (c :: cs) sub || Contains cs sub

/-- The loop of Go `filepath.Ext` on a Unix system, run over the reversed
path: walk back from the last byte, stop with no extension at a `/`, and
return the tail of the path from the first `.` met. `acc` is the part of
the path already walked over. -/
def extLoop : Str → Str → Str
  | [], _ => []
  | c :: rest, acc =>
    if c = '/' then []
    else if c = '.' then '.' :: acc
    else extLoop rest (c :: acc)

/-- Go `filepath.Ext(path)`: the suffix beginning at the final dot in the
final slash-separated element of `path`; empty if there is no dot. -/
def Ext (path : Str) : Str :=
  extLoop path.reverse []

/-- The scan of Go `strings.Replace(s, old, new, -1)` for a non-empty `old`:
left to right, every non-overlapping occurrence of `old` is replaced by
`new`. The first argument counts the characters of a matched occurrence that
are still to be skipped. -/
def replaceLoop (old new : Str) : Nat → Str → Str
  | _, [] => []
  | skip + 1, _ :: cs => replaceLoop old new skip cs
  | 0, c :: cs =>
    if HasPrefix (c :: cs) old then new ++ replaceLoop old new (old.length - 1) cs
    else c :: replaceLoop old new 0 cs

/-- Go `strings.Replace(s, old, new, -1)`. With an empty `old`, `new` is
inserted before every character and at the end. -/
def ReplaceAll (s old new : Str) : Str :=
  match old with
  | [] => new ++ (s.map (fun c => c :: new)).flatten
  | _ :: _ => replaceLoop old new 0 s

/-- Cased ASCII runes. -/
def isUpperAscii (c : Char) : Bool := 'A'.toNat ≤ c.toNat && c.toNat ≤ 'Z'.toNat

/-- Lower case ASCII letters. -/
def isLowerAscii (c : Char) : Bool := 'a'.toNat ≤ c.toNat && c.toNat ≤ 'z'.toNat

/-- ASCII letters. -/
def isAsciiLetter (c : Char) : Bool := isUpperAscii c || isLowerAscii c

/-- Go `unicode.ToLower` on the ASCII range (`A`..`Z` map to `a`..`z`).
Runes outside ASCII are left as they are: their case tables are not part of
this development, and the statements below only rely on the ASCII range. -/
def toLowerRune (c : Char) : Char :=
  if isUpperAscii c then Char.ofNat (c.toNat + 32) else c

/-- Go `unicode.ToTitle` on the ASCII range (`a`..`z` map to `A`..`Z`), with
the same restriction as `toLowerRune`. -/
def toTitleRune (c : Char) : Char :=
  if isLowerAscii c then Char.ofNat (c.toNat - 32) else c

/-- Go `strings.ToLower`. -/
def ToLower (s : Str) : Str := s.map toLowerRune

/-- Go `unicode.IsSpace`: the Unicode White_Space property. -/
def IsSpace (c : Char) : Bool :=
  let n := c.toNat
  n = 0x20 || (0x09 ≤ n && n ≤ 0x0D) || n = 0x85 || n = 0xA0 || n = 0x1680 ||
  (0x2000 ≤ n && n ≤ 0x200A) || n = 0x2028 || n = 0x2029 || n = 0x202F ||
  n = 0x205F || n = 0x3000

/-- Go `strings.TrimSpace`: leading and trailing white space removed. -/
def TrimSpace (s : Str) : Str :=
  ((s.dropWhile IsSpace).reverse.dropWhile IsSpace).reverse

/-- Word-break class of a rune as `golang.org/x/text/cases` uses it: the
library collapses the Unicode Word_Break property to these three. -/
inductive BreakCat
  | brk
  | letter
  | mid
  deriving DecidableEq, Repr

/-- The data the title caser of `golang.org/x/text/cases` reads for each
rune from the library's generated Unicode tables. The tables are not part of
the repository, so they are a parameter of the embedding. -/
structure CaseData where
  /-- Whether the rune is cased (`info.isCased`). -/
  cased : Char → Bool
  /-- The word-break class of the rune: `letter` for `ALetter`,
  `Hebrew_Letter`, `Numeric`, `Extend`, `ExtendNumLet`, `Format`, `ZWJ`; `mid`
  for `MidLetter`, `MidNumLet`, `Single_Quote`; `brk` for every other rune. -/
  cat : Char → BreakCat
  /-- The title case mapping of the rune (one or several runes). -/
  title : Char → Str
  /-- The lower case mapping of the rune (one or several runes) when the
  given text follows it; only the mapping of a capital sigma looks at that
  text. -/
  lower : Char → Str → Str

/-- The word-break class on the ASCII range: letters, digits and `_`
continue a word; `:`, `.` and the apostrophe are "mid" runes; every other
ASCII rune ends the word. -/
def breakCat (c : Char) : BreakCat :=
  if isAsciiLetter c then .letter
  else if '0'.toNat ≤ c.toNat && c.toNat ≤ '9'.toNat then .letter
  else if c = '_' then .letter
  else if c = ':' || c = '.' || c.toNat = 39 then .mid
  else .brk

/-- The Unicode data cut down to the ASCII range, for the worked examples
(whose texts are ASCII): ASCII letters are the cased runes, with their usual
title and lower case mappings; a rune outside ASCII is carried as an uncased
rune of class `brk`. -/
def asciiData : CaseData where
  cased := isAsciiLetter
  cat := breakCat
  title := fun c => [toTitleRune c]
  lower := fun c _ => [toLowerRune c]

/-- What every instance of the Unicode data says about ASCII letters and the
space: a letter is cased, with the ASCII title and lower case mappings; the
space is uncased and ends a word. -/
def CaseData.asciiLetters (u : CaseData) : Prop :=
  (∀ c, isAsciiLetter c = true →
    u.cased c = true ∧ u.title c = [toTitleRune c] ∧ ∀ rest, u.lower c rest = [toLowerRune c]) ∧
  u.cased ' ' = false ∧ u.cat ' ' = .brk

/-- The transformer loop of `cases.Title(language.English)` (no `NoLower`
option): a cased rune is title-cased when it is the first cased rune of its
word and lower-cased otherwise; every other rune is copied, and ends the
word when its class is `brk`; two "mid" runes in a row end the word as well.
`isMidWord` and `wasMid` are the transformer's state. -/
def titleLoop (u : CaseData) : Bool → Bool → Str → Str
  | _, _, [] => []
  | isMidWord, wasMid, c :: cs =>
    let isMid : Bool := u.cat c = .mid && !u.cased c
    let isMidWord := if wasMid && isMid then false else isMidWord
    if u.cased c then
      (if isMidWord then u.lower c cs else u.title c) ++ titleLoop u true isMid cs
    else
      c :: titleLoop u (if u.cat c = .brk then false else isMidWord) isMid cs

/-- The caser `cases.Title(language.English)` applied to a string. -/
def Title (u : CaseData) (s : Str) : Str := titleLoop u false false s

/-! ## `command.go` -/

/-- `processFileName` takes a name and returns the filename (with extension)
and title. `u` is the Unicode data behind the title caser. -/
def processFileName (u : CaseData) (fileName : Str) : Str × Str :=
  let ext := Ext fileName
  let needsMd : Bool := ext ≠ ".md".toList ∧ ext ≠ ".html".toList
  let fileName := if needsMd then fileName ++ ".md".toList else fileName
  let ext := if needsMd then ".md".toList else ext
  let fileNameWithoutExt := TrimSuffix fileName ext
  let replaceWithSpaces :=
    ReplaceAll (ReplaceAll fileNameWithoutExt "-".toList " ".toList) "_".toList " ".toList
  let title := Title u replaceWithSpaces
  (fileName, title)

/-- The loop of Go `strings.Split(s, sep)` for a non-empty `sep`: `cur` is
the piece being collected, the first argument the number of characters of a
matched separator still to be skipped. -/
def splitLoop (sep : Str) : Nat → Str → Str → List Str
  | _, cur, [] => [cur]
  | skip + 1, cur, _ :: cs => splitLoop sep skip cur cs
  | 0, cur, c :: cs =>
    if HasPrefix (c :: cs) sep then cur :: splitLoop sep (sep.length - 1) [] cs
    else splitLoop sep 0 (cur ++ [c]) cs

/-- Go `strings.Split(s, sep)`; an empty `sep` splits after every
character. -/
def Split (s sep : Str) : List Str :=
  match sep with
  | [] => s.map (fun c => [c])
  | _ :: _ => splitLoop sep 0 [] s

/-- The backtracking of `filepath.Clean` at a `..` element: from write index
`w`, step back while `w > dotdot` and the byte at `w` is no separator. -/
def cleanBack (out : Str) (dotdot : Nat) : Nat → Nat
  | 0 => 0
  | w + 1 =>
    if dotdot < w + 1 && out.getD (w + 1) ' ' ≠ '/' then cleanBack out dotdot w else w + 1

/-- The main loop of Go `filepath.Clean` (Unix). `out` is the output buffer
(its length is the write index `w`), `dotdot` the index where `..` must stop,
`inElem` tells that a real path element is being copied, and the first
argument counts bytes already consumed by the current step. -/
def cleanLoop (rooted : Bool) : Nat → Bool → Str → Nat → Str → Str
  | _, _, out, _, [] => out
  | skip + 1, inElem, out, dotdot, _ :: cs => cleanLoop rooted skip inElem out dotdot cs
  | 0, true, out, dotdot, c :: cs =>
    if c = '/' then cleanLoop rooted 0 false out dotdot cs
    else cleanLoop rooted 0 true (out ++ [c]) dotdot cs
  | 0, false, out, dotdot, c :: cs =>
    if c = '/' then
      -- empty path element
      cleanLoop rooted 0 false out dotdot cs
    else if c = '.' && (cs.isEmpty || cs.head? == some '/') then
      -- . element
      cleanLoop rooted 0 false out dotdot cs
    else if c = '.' && cs.head? == some '.' &&
        (cs.tail.isEmpty || cs.tail.head? == some '/') then
      -- .. element: remove to last separator
      if dotdot < out.length then
        cleanLoop rooted 1 false (out.take (cleanBack out dotdot (out.length - 1))) dotdot cs
      else if !rooted then
        let out1 := (if 0 < out.length then out ++ ['/'] else out) ++ ['.', '.']
        cleanLoop rooted 1 false out1 out1.length cs
      else
        cleanLoop rooted 1 false out dotdot cs
    else
      -- real path element: add slash if needed, then copy the element
      let out1 :=
        if (rooted && out.length != 1) || (!rooted && out.length != 0) then out ++ ['/']
        else out
      cleanLoop rooted 0 true (out1 ++ [c]) dotdot cs

/-- Go `filepath.Clean` (Unix): the shortest path equivalent to `path` by
purely lexical processing. -/
def Clean (path : Str) : Str :=
  match path with
  | [] => ['.']
  | c :: cs =>
    let out :=
      if c = '/' then cleanLoop true 0 false ['/'] 1 cs
      else cleanLoop false 0 false [] 0 (c :: cs)
    if out.length = 0 then ['.'] else out

/-- Go `filepath.Join`: the elements from the first non-empty one on are
joined with `/` and the result is cleaned; all-empty input gives the empty
string. -/
def Join : List Str → Str
  | [] => []
  | e :: es => if e ≠ [] then Clean (List.intercalate ['/'] (e :: es)) else Join es


/-- The configuration record (`Config`), with the fields `command.go`
reads. -/
structure Config where
  ContentDirectory : Str
  OutputDirectory : Str
  Author : Str
  Theme : Str
  Editor : Str
  PreviewURL : Str

/-- The `Command` struct. -/
structure Command where
  rootPath : Str
  contentDir : Str
  outputDir : Str
  templateDir : Str

/-- `SetRootPath`: set the root path and common directories for commands.
`config` is the process-wide configuration. -/
def SetRootPath (config : Config) (_c : Command) (path : Str) : Command :=
  { rootPath := path
    contentDir := Join [path, config.ContentDirectory]
    outputDir := Join [path, config.OutputDirectory]
    templateDir := Join [path, "template".toList] }

/-- The title placeholder of the content template. -/
def titleToken : Str := "\x7btitle\x7d".toList

/-- The content type placeholder of the content template. -/
def contentTypeToken : Str := "\x7bcontentType\x7d".toList

/-- The author placeholder of the content template. -/
def authorToken : Str := "\x7bauthor\x7d".toList

/-- `defaultContent` returns default content based on the content type.
`config` is the process-wide configuration and `NewMD` the content template
constant, both declared outside `command.go`. -/
def defaultContent (config : Config) (NewMD : Str) (contentType title : Str) : Str :=
  let content := NewMD
  let content := ReplaceAll content titleToken title
  let content := ReplaceAll content contentTypeToken contentType
  let content := ReplaceAll content authorToken config.Author
  content

/-- Levels of the logging facade. -/
inductive Level
  | info
  | success
  | warn
  | error
  | plain
  deriving DecidableEq, Repr

/-- The effects `createNewContent` has on its surroundings, in the order it
performs them. -/
inductive Event
  | log (level : Level) (format : Str) (args : List Str)
  | println (args : List Str)
  | create (path content : Str)
  | existsRecursive (name dir : Str)
  | readString
  | sleep (milliseconds : Nat)
  | run (name : Str) (args : List Str)
  deriving DecidableEq, Repr

/-- The surroundings of a command, over a state `σ` of the outside world
(file system, standard input, processes). An error is represented by its
message. -/
structure Sys (σ : Type) where
  /-- Method `filesystem.Create(path, content) error`. -/
  Create : Str → Str → σ → Option Str × σ
  /-- Method `filesystem.ExistsRecursive(name, dir) (bool, error)`. -/
  ExistsRecursive : Str → Str → σ → (Bool × Option Str) × σ
  /-- Method `bufio.NewReader(os.Stdin).ReadString('\n')`. -/
  ReadString : σ → (Str × Option Str) × σ
  /-- Method `exec.Command(name, args...).Run()` with the standard streams attached. -/
  Run : Str → List Str → σ → Option Str × σ

/-- The outcome of a command step: returned value, effects, final state of
the world. -/
structure Outcome (α σ : Type) where
  result : α
  trace : List Event
  world : σ

/-- `openFileInEditor` opens the specified file in the given editor. -/
def openFileInEditor {σ : Type} (sys : Sys σ) (editor filePath : Str) (w : σ) :
    Outcome (Option Str) σ :=
  let r := sys.Run editor [filePath] w
  { result := r.1
    trace := [Event.log .plain "Opening file in editor: %s".toList [editor],
              Event.sleep 500,
              Event.run editor [filePath]]
    world := r.2 }

/-- The content type derived at the head of `createNewContent`. -/
def contentTypeOf (typeDirectory : Str) : Str :=
  if Contains typeDirectory "/".toList then (Split typeDirectory "/".toList).headD []
  else typeDirectory

/-- The tail of `createNewContent`: check if the editor is set and not
empty, then open the file with it. -/
def editorStep {σ : Type} (sys : Sys σ) (config : Config) (path : Str) (w : σ) :
    Outcome (Option Str) σ :=
  if config.Editor ≠ [] ∧ config.Editor ≠ "none".toList then
    let o := openFileInEditor sys config.Editor path w
    match o.result with
    | some err =>
      { result := none
        trace := o.trace ++ [Event.log .error "Failed to open file in editor: %v".toList [err]]
        world := o.world }
    | none => { result := none, trace := o.trace, world := o.world }
  else { result := none, trace := [], world := w }

/-- `createNewContent` creates a new content file in the specified
directory. `global` is the process-wide configuration read by
`defaultContent`, `config` the parameter of the method, `u` the Unicode data
behind the title caser. -/
def createNewContent {σ : Type} (sys : Sys σ) (u : CaseData) (global : Config) (NewMD : Str)
    (_c : Command) (config : Config) (typeDirectory fileNameParam : Str) (w0 : σ) :
    Outcome (Option Str) σ :=
  let fileName := (processFileName u fileNameParam).1
  let title := (processFileName u fileNameParam).2
  -- Determine content type
  let contentType := contentTypeOf typeDirectory
  -- Construct the path
  let t0 := [Event.log .info "Creating new %s in %s".toList [contentType, config.ContentDirectory]]
  let path := Join [config.ContentDirectory, typeDirectory, fileName]
  -- Get default content
  let content := defaultContent global NewMD contentType title
  -- Create the file or directory
  let t1 := t0 ++ [Event.create path content]
  match sys.Create path content w0 with
  | (some err, w1) =>
    { result := some ("failed to create ".toList ++ path ++ ": ".toList ++ err)
      trace := t1
      world := w1 }
  | (none, w1) =>
    let t2 := t1 ++ [Event.log .success "Successfully created new %s: %s".toList [contentType, path]]
    -- Check if the template exists
    let templateName := contentType ++ ".tmpl".toList
    let t3 := t2 ++ [Event.existsRecursive templateName "template".toList]
    match sys.ExistsRecursive templateName "template".toList w1 with
    | ((_, some err), w2) =>
      { result := none
        trace := t3 ++ [Event.println ["Error searching for template:".toList, err]]
        world := w2 }
    | ((true, none), w2) =>
      let o := editorStep sys config path w2
      { result := o.result, trace := t3 ++ o.trace, world := o.world }
    | ((false, none), w2) =>
      -- Ask the user to create the template file if it doesn't exist
      let t4 := t3 ++
        [Event.log .warn "Template file not found: %s".toList [templateName],
         Event.log .plain "Do you want to create this template? (Yes/no)".toList [],
         Event.readString]
      match sys.ReadString w2 with
      | ((_, some err), w3) =>
        { result := none
          trace := t4 ++ [Event.log .error "Error reading response:".toList [err]]
          world := w3 }
      | ((response, none), w3) =>
        -- Trim whitespace and newline character
        let response := ToLower (TrimSpace response)
        -- If yes, then create the template file
        if response = "yes".toList ∨ response = [] then
          let tpath := "template/".toList ++ templateName
          let template := "DefaultTemplate_".toList ++ config.Theme
          let t5 := t4 ++
            [Event.log .info "Creating template file: %s".toList [templateName],
             Event.create tpath template]
          match sys.Create tpath template w3 with
          | (some err, w4) =>
            { result := none
              trace := t5 ++ [Event.log .error "Error creating template:".toList [err]]
              world := w4 }
          | (none, w4) =>
            let o := editorStep sys config path w4
            { result := o.result
              trace := t5 ++ [Event.log .success "Template created successfully.".toList []] ++ o.trace
              world := o.world }
        else
          let o := editorStep sys config path w3
          { result := o.result, trace := t4 ++ o.trace, world := o.world }

/-- The `filesystem.Create` calls of a trace, as (path, content) pairs. -/
def creates : List Event → List (Str × Str)
  | [] => []
  | Event.create p c :: es => (p, c) :: creates es
  | _ :: es => creates es

/-- The external programs started in a trace, as (name, arguments) pairs. -/
def launches : List Event → List (Str × List Str)
  | [] => []
  | Event.run n a :: es => (n, a) :: launches es
  | _ :: es => launches es

/-- The `filesystem.ExistsRecursive` calls of a trace. -/
def searches : List Event → List (Str × Str)
  | [] => []
  | Event.existsRecursive n d :: es => (n, d) :: searches es
  | _ :: es => searches es

/-- The number of lines read from standard input in a trace. -/
def reads : List Event → Nat
  | [] => 0
  | Event.readString :: es => reads es + 1
  | _ :: es => reads es

/-- The destination path `createNewContent` builds for the content file. -/
def destination (u : CaseData) (config : Config) (typeDirectory fileNameParam : Str) : Str :=
  Join [config.ContentDirectory, typeDirectory, (processFileName u fileNameParam).1]

/-- The body `createNewContent` renders for the content file. -/
def body (u : CaseData) (global : Config) (NewMD typeDirectory fileNameParam : Str) : Str :=
  defaultContent global NewMD (contentTypeOf typeDirectory) (processFileName u fileNameParam).2

/-- The template file name `createNewContent` looks for. -/
def templateName (typeDirectory : Str) : Str :=
  contentTypeOf typeDirectory ++ ".tmpl".toList

/-- The test `createNewContent` applies to the line read at the template
prompt. -/
def accepts (response : Str) : Prop :=
  ToLower (TrimSpace response) = "yes".toList ∨ ToLower (TrimSpace response) = []

instance (response : Str) : Decidable (accepts response) := by
  unfold accepts
  exact inferInstance

/-- The last `/`-separated element of a path, in the words of the
specification. -/
def lastElement (f : Str) : Str :=
  (f.reverse.takeWhile (fun c => decide (c ≠ '/'))).reverse

/-- The extension of a file name in the words of the specification: the
suffix of its last `/`-separated element that starts at the last `.` of that
element, and nothing when the element has no `.`. -/
def extensionOf (f : Str) : Str :=
  if '.' ∈ lastElement f then
    '.' :: ((lastElement f).reverse.takeWhile (fun c => decide (c ≠ '.'))).reverse
  else []

/-- The first step of the title rule: `-` and `_` become a space. -/
def spaced (c : Char) : Char := if c = '-' ∨ c = '_' then ' ' else c

/-- Title casing over white space separated tokens, in the words of the
specification: the first character of every token is capitalized; the rest
of the token is lower-cased when `lowerRest` is set and left as it is
otherwise. The second argument tells that a token starts here. -/
def tokenCase (lowerRest : Bool) : Bool → Str → Str
  | _, [] => []
  | atStart, c :: cs =>
    if IsSpace c then c :: tokenCase lowerRest true cs
    else
      (if atStart then toTitleRune c else if lowerRest then toLowerRune c else c) ::
        tokenCase lowerRest false cs

/-- The title of a stem as the specification words it: rest of each token
unchanged. -/
def titleAsClaimed (stem : Str) : Str := tokenCase false true (stem.map spaced)

/-- The title of a stem with the rest of each token lower-cased. -/
def titleLowered (stem : Str) : Str := tokenCase true true (stem.map spaced)

/-- The three placeholders of the content template. -/
inductive Tok
  | title
  | contentType
  | author
  deriving DecidableEq, Repr

/-- The text of a placeholder. -/
def Tok.text : Tok → Str
  | .title => titleToken
  | .contentType => contentTypeToken
  | .author => authorToken

/-- A piece of a tokenized text: literal text or a placeholder. -/
inductive Part
  | lit (s : Str)
  | tok (k : Tok)
  deriving DecidableEq, Repr

/-- A text without an opening brace; no placeholder can start in it. -/
def braceFree (s : Str) : Prop := '\x7b' ∉ s

instance (s : Str) : Decidable (braceFree s) := by
  unfold braceFree
  exact inferInstance

/-- A piece is well formed when it is a placeholder or brace free literal
text. -/
def Part.ok : Part → Prop
  | .lit s => braceFree s
  | .tok _ => True

instance (p : Part) : Decidable p.ok := by
  cases p with
  | lit s => exact inferInstanceAs (Decidable (braceFree s))
  | tok k => exact inferInstanceAs (Decidable True)

/-- A tokenized text is well formed when its literal pieces are brace
free, so that its placeholders are exactly its `tok` pieces. -/
def wellFormed (ps : List Part) : Prop := ∀ p ∈ ps, p.ok

instance (ps : List Part) : Decidable (wellFormed ps) := by
  unfold wellFormed
  exact inferInstance

/-- Simultaneous substitution, in the words of the specification: every
title placeholder becomes `title`, every content type placeholder
`contentType`, every author placeholder `author`, all other text is kept. -/
def substitutePart (title contentType author : Str) : Part → Str
  | .lit s => s
  | .tok .title => title
  | .tok .contentType => contentType
  | .tok .author => author

/-- Simultaneous substitution over a tokenized text. -/
def substitute (title contentType author : Str) (ps : List Part) : Str :=
  (ps.map (substitutePart title contentType author)).flatten

/-- The text a tokenized text stands for: every placeholder spelled out. -/
def render (ps : List Part) : Str :=
  substitute titleToken contentTypeToken authorToken ps

/-- One pass over a tokenized text: the pieces `tok k` are replaced by the
pieces `vs`. -/
def bindTok (k : Tok) (vs : List Part) (ps : List Part) : List Part :=
  ps.flatMap (fun p => if p = .tok k then vs else [p])

/-- One replacement pass seen on a piece: the placeholder `k` becomes `v`,
everything else is spelled out. -/
def fillPart (k : Tok) (v : Str) : Part → Str
  | .lit s => s
  | .tok j => if j = k then v else j.text

/-- One replacement pass seen on a tokenized text. -/
def fillTok (k : Tok) (v : Str) (ps : List Part) : Str :=
  (ps.map (fillPart k v)).flatten

/-- The answers of a scripted outside world: what the content write, the
template search, the prompt, the template write and the editor return. -/
structure Script where
  write : Option Str
  search : Bool × Option Str
  line : Str × Option Str
  templateWrite : Option Str
  editor : Option Str

/-- A scripted outside world. Its state counts the `filesystem.Create`
calls made so far, so that the first call (the content file) and the second
(the template) can be given different answers. -/
def scripted (s : Script) : Sys Nat where
  Create := fun _ _ n => (if n = 0 then s.write else s.templateWrite, n + 1)
  ExistsRecursive := fun _ _ n => (s.search, n)
  ReadString := fun n => (s.line, n)
  Run := fun _ _ n => (s.editor, n)

/-- Script: the content write is refused. -/
def writeDenied : Script where
  write := some "permission denied".toList
  search := (false, none)
  line := ("\n".toList, none)
  templateWrite := none
  editor := none

/-- Script: everything works, no template exists, the operator answers
with `line`. -/
def answering (line : Str) : Script where
  write := none
  search := (false, none)
  line := (line, none)
  templateWrite := none
  editor := none

/-- Script: the content write works and the template search fails. -/
def searchBroken : Script where
  write := none
  search := (false, some "open template: no such file or directory".toList)
  line := ("\n".toList, none)
  templateWrite := none
  editor := none

/-- Script: everything works and the template exists. -/
def templateFound : Script where
  write := none
  search := (true, none)
  line := ("\n".toList, none)
  templateWrite := none
  editor := none

/-- A configuration used in the worked examples. -/
def sampleConfig : Config where
  ContentDirectory := "content".toList
  OutputDirectory := "web".toList
  Author := "Ann".toList
  Theme := "none".toList
  Editor := "vim".toList
  PreviewURL := "http://localhost:8080".toList

/-- A content template used in the worked examples. -/
def sampleNewMD : Str :=
  "title: \x7btitle\x7d\ntype: \x7bcontentType\x7d\nauthor: \x7bauthor\x7d\n# \x7btitle\x7d\n".toList

/-- The pieces of `sampleNewMD`. -/
def sampleParts : List Part :=
  [.lit "title: ".toList, .tok .title, .lit "\ntype: ".toList, .tok .contentType,
   .lit "\nauthor: ".toList, .tok .author, .lit "\n# ".toList, .tok .title, .lit "\n".toList]

/-- A template whose pieces are text and the content type and title
placeholders. -/
def seqTemplate : List Part :=
  [.lit "type: ".toList, .tok .contentType, .lit ", title: ".toList, .tok .title]

/-- A label that contains the author placeholder. -/
def seqLabel : List Part := [.lit "post by ".toList, .tok .author]

/-- A title that contains the content type and author placeholders. -/
def seqTitle : List Part := [.tok .contentType, .lit " of ".toList, .tok .author]

/-- The zero value of `Command`. -/
def emptyCommand : Command where
  rootPath := []
  contentDir := []
  outputDir := []
  templateDir := []

/-! ## Auxiliary facts about the library routines -/

theorem hasPrefix_iff (s p : Str) : HasPrefix s p = true ↔ p <+: s := by
  unfold HasPrefix
  constructor
  · intro h
    simp only [Bool.and_eq_true, decide_eq_true_eq, beq_iff_eq] at h
    have h2 := List.take_append_drop p.length s
    rw [h.2] at h2
    exact ⟨s.drop p.length, h2⟩
  · rintro ⟨t, rfl⟩
    simp

theorem hasPrefix_cons_single (c d : Char) (cs : Str) :
    HasPrefix (c :: cs) [d] = decide (c = d) := by
  unfold HasPrefix
  by_cases h : c = d <;> simp [h]

theorem hasSuffix_append (s suffix : Str) : HasSuffix (s ++ suffix) suffix = true := by
  unfold HasSuffix
  simp

theorem trimSuffix_append (s suffix : Str) : TrimSuffix (s ++ suffix) suffix = s := by
  unfold TrimSuffix
  rw [if_pos (hasSuffix_append s suffix)]
  simp

theorem contains_single (s : Str) (d : Char) : Contains s [d] = true ↔ d ∈ s := by
  induction s with
  | nil => simp [Contains, HasPrefix]
  | cons c cs ih =>
    rw [Contains, hasPrefix_cons_single, Bool.or_eq_true, ih, decide_eq_true_eq, List.mem_cons]
    constructor
    · rintro (h | h)
      · exact Or.inl h.symm
      · exact Or.inr h
    · rintro (h | h)
      · exact Or.inl h.symm
      · exact Or.inr h

theorem splitLoop_single_head (d : Char) (s cur : Str) :
    (splitLoop [d] 0 cur s).headD [] = cur ++ s.takeWhile (fun c => decide (c ≠ d)) := by
  induction s generalizing cur with
  | nil => simp [splitLoop]
  | cons c cs ih =>
    rw [splitLoop, hasPrefix_cons_single]
    by_cases h : c = d
    · simp [h]
    · rw [if_neg (by simpa using h), ih]
      simp [h]

theorem contentTypeOf_eq_takeWhile (t : Str) :
    contentTypeOf t = t.takeWhile (fun c => decide (c ≠ '/')) := by
  unfold contentTypeOf
  split
  · exact (splitLoop_single_head '/' t []).trans (by simp)
  · rename_i h
    have h1 : '/' ∉ t := fun hm => h ((contains_single t '/').2 hm)
    symm
    rw [List.takeWhile_eq_self_iff]
    intro c hc
    simp only [ne_eq, decide_not, Bool.not_eq_eq_eq_not, Bool.not_true, decide_eq_false_iff_not]
    rintro rfl
    exact h1 hc

theorem takeWhile_ne_split (d : Char) (t : Str) (h : d ∈ t) :
    ∃ rest, t = t.takeWhile (fun c => decide (c ≠ d)) ++ d :: rest := by
  induction t with
  | nil => simp at h
  | cons c cs ih =>
    by_cases hc : c = d
    · exact ⟨cs, by simp [hc]⟩
    · have hm : d ∈ cs := by
        rcases List.mem_cons.1 h with h1 | h1
        · exact absurd h1.symm hc
        · exact h1
      obtain ⟨rest, hr⟩ := ih hm
      refine ⟨rest, ?_⟩
      simp only [List.takeWhile_cons, ne_eq, hc, not_false_eq_true, decide_True, ite_true,
        List.cons_append]
      exact congrArg (c :: ·) hr

theorem not_mem_takeWhile_ne (d : Char) (t : Str) :
    d ∉ t.takeWhile (fun c => decide (c ≠ d)) := by
  intro h
  have := List.mem_takeWhile_imp h
  simp at this

theorem extLoop_eq (r acc : Str) :
    extLoop r acc =
      if '.' ∈ r.takeWhile (fun c => decide (c ≠ '/')) then
        '.' :: (((r.takeWhile (fun c => decide (c ≠ '/'))).takeWhile
          (fun c => decide (c ≠ '.'))).reverse ++ acc)
      else [] := by
  induction r generalizing acc with
  | nil => simp [extLoop]
  | cons c rest ih =>
    rw [extLoop]
    by_cases h1 : c = '/'
    · simp [h1]
    · by_cases h2 : c = '.'
      · simp [h2]
      · rw [if_neg h1, if_neg h2, ih]
        have h3 : ¬ '.' = c := fun h => h2 h.symm
        simp [h1, h2, h3]

theorem ext_eq_extensionOf (f : Str) : Ext f = extensionOf f := by
  unfold Ext extensionOf lastElement
  rw [extLoop_eq]
  simp

theorem extLoop_suffix (r acc : Str) : extLoop r acc <:+ r.reverse ++ acc := by
  induction r generalizing acc with
  | nil => exact List.nil_suffix
  | cons c rest ih =>
    rw [extLoop]
    by_cases h1 : c = '/'
    · rw [if_pos h1]
      exact List.nil_suffix
    · rw [if_neg h1]
      by_cases h2 : c = '.'
      · rw [if_pos h2, h2]
        exact ⟨rest.reverse, by simp⟩
      · rw [if_neg h2]
        have := ih (c :: acc)
        simpa using this

theorem ext_suffix (f : Str) : Ext f <:+ f := by
  have := extLoop_suffix f.reverse []
  simpa [Ext] using this

/-! ## `strings.Replace` -/

theorem splitLoop_ne_nil (sep : Str) (n : Nat) (cur s : Str) : splitLoop sep n cur s ≠ [] := by
  induction s generalizing n cur with
  | nil => simp [splitLoop]
  | cons c cs ih =>
    cases n with
    | zero =>
      rw [splitLoop]
      split
      · simp
      · exact ih _ _
    | succ n =>
      rw [splitLoop]
      exact ih _ _

theorem intercalate_cons_of_ne_nil (sep x : Str) (xs : List Str) (h : xs ≠ []) :
    List.intercalate sep (x :: xs) = x ++ sep ++ List.intercalate sep xs := by
  cases xs with
  | nil => exact absurd rfl h
  | cons y ys => simp [List.intercalate, List.intersperse]

theorem replaceLoop_eq_intercalate (old new : Str) (n : Nat) (cur s : Str) :
    cur ++ replaceLoop old new n s = List.intercalate new (splitLoop old n cur s) := by
  induction s generalizing n cur with
  | nil => simp [replaceLoop, splitLoop, List.intercalate, List.intersperse]
  | cons c cs ih =>
    cases n with
    | zero =>
      rw [replaceLoop, splitLoop]
      split
      · rw [intercalate_cons_of_ne_nil _ _ _ (splitLoop_ne_nil _ _ _ _), ← ih]
        simp
      · rw [← ih]
        simp
    | succ n =>
      rw [replaceLoop, splitLoop]
      exact ih _ _

/-- `strings.Replace(s, old, new, -1)` cuts `s` at every occurrence of
`old` and joins the pieces with `new`. -/
theorem replaceAll_eq_join_split (s old new : Str) (h : old ≠ []) :
    ReplaceAll s old new = List.intercalate new (Split s old) := by
  cases old with
  | nil => exact absurd rfl h
  | cons o os =>
    have := replaceLoop_eq_intercalate (o :: os) new 0 [] s
    simpa [ReplaceAll, Split] using this

theorem replaceLoop_skip (old new : Str) (xs rest : Str) :
    replaceLoop old new xs.length (xs ++ rest) = replaceLoop old new 0 rest := by
  induction xs with
  | nil => rfl
  | cons x xs ih => simpa [replaceLoop] using ih

theorem hasPrefix_append_self (old rest : Str) : HasPrefix (old ++ rest) old = true :=
  (hasPrefix_iff _ _).2 ⟨rest, rfl⟩

theorem replaceLoop_match (o : Char) (os new rest : Str) :
    replaceLoop (o :: os) new 0 ((o :: os) ++ rest) =
      new ++ replaceLoop (o :: os) new 0 rest := by
  have h := hasPrefix_append_self (o :: os) rest
  rw [List.cons_append] at h ⊢
  rw [replaceLoop, if_pos h]
  simp only [List.length_cons, Nat.add_sub_cancel]
  rw [replaceLoop_skip]

theorem hasPrefix_cons_ne (c o : Char) (cs os : Str) (h : c ≠ o) :
    HasPrefix (c :: cs) (o :: os) = false := by
  rw [Bool.eq_false_iff]
  intro hp
  obtain ⟨r, hr⟩ := (hasPrefix_iff _ _).1 hp
  simp only [List.cons_append, List.cons.injEq] at hr
  exact h hr.1.symm

theorem replaceLoop_no_match (o : Char) (os new xs rest : Str) (h : o ∉ xs) :
    replaceLoop (o :: os) new 0 (xs ++ rest) = xs ++ replaceLoop (o :: os) new 0 rest := by
  induction xs with
  | nil => rfl
  | cons x xs ih =>
    have hx : x ≠ o := fun e => h (by simp [e])
    have hxs : o ∉ xs := fun e => h (by simp [e])
    rw [List.cons_append, replaceLoop, hasPrefix_cons_ne x o _ _ hx]
    simp only [Bool.false_eq_true, if_false, List.cons_append, List.cons.injEq, true_and]
    exact ih hxs

/-! ## Replacement passes over tokenized text -/

theorem tok_text_shape (k : Tok) : ∃ os, k.text = '\x7b' :: os ∧ '\x7b' ∉ os := by
  cases k
  · exact ⟨"title\x7d".toList, rfl, by decide⟩
  · exact ⟨"contentType\x7d".toList, rfl, by decide⟩
  · exact ⟨"author\x7d".toList, rfl, by decide⟩

theorem hasPrefix_other_tok (k j : Tok) (h : j ≠ k) (rest : Str) :
    HasPrefix (j.text ++ rest) k.text = false := by
  rw [Bool.eq_false_iff]
  intro hp
  obtain ⟨r, hr⟩ := (hasPrefix_iff _ _).1 hp
  cases k <;> cases j <;>
    first
    | exact h rfl
    | (simp [Tok.text, titleToken, contentTypeToken, authorToken] at hr)

theorem replaceLoop_other_tok (k j : Tok) (h : j ≠ k) (v rest : Str) :
    replaceLoop k.text v 0 (j.text ++ rest) = j.text ++ replaceLoop k.text v 0 rest := by
  have hp := hasPrefix_other_tok k j h rest
  obtain ⟨os, hk, _⟩ := tok_text_shape k
  obtain ⟨js, hj, hjs⟩ := tok_text_shape j
  rw [hk, hj] at hp ⊢
  rw [List.cons_append] at hp ⊢
  rw [replaceLoop, hp]
  simp only [Bool.false_eq_true, if_false]
  exact congrArg (List.cons '\x7b') (replaceLoop_no_match _ _ _ _ _ hjs)

theorem render_cons (p : Part) (ps : List Part) :
    render (p :: ps) = substitutePart titleToken contentTypeToken authorToken p ++ render ps := by
  simp [render, substitute]

theorem render_tok (k : Tok) :
    substitutePart titleToken contentTypeToken authorToken (.tok k) = k.text := by
  cases k <;> rfl

theorem render_append (ps qs : List Part) : render (ps ++ qs) = render ps ++ render qs := by
  simp [render, substitute]

theorem fillTok_cons (k : Tok) (v : Str) (p : Part) (ps : List Part) :
    fillTok k v (p :: ps) = fillPart k v p ++ fillTok k v ps := by
  simp [fillTok]

theorem fillTok_append (k : Tok) (v : Str) (ps qs : List Part) :
    fillTok k v (ps ++ qs) = fillTok k v ps ++ fillTok k v qs := by
  simp [fillTok]

theorem wellFormed_cons (p : Part) (ps : List Part) :
    wellFormed (p :: ps) ↔ p.ok ∧ wellFormed ps := by
  simp [wellFormed]

theorem wellFormed_append (ps qs : List Part) :
    wellFormed (ps ++ qs) ↔ wellFormed ps ∧ wellFormed qs := by
  simp only [wellFormed, List.mem_append]
  constructor
  · intro h
    exact ⟨fun p hp => h p (Or.inl hp), fun p hp => h p (Or.inr hp)⟩
  · rintro ⟨h1, h2⟩ p (hp | hp)
    · exact h1 p hp
    · exact h2 p hp

theorem replaceLoop_render (k : Tok) (v : Str) (ps : List Part) (h : wellFormed ps) :
    replaceLoop k.text v 0 (render ps) = fillTok k v ps := by
  obtain ⟨os, hk, _⟩ := tok_text_shape k
  induction ps with
  | nil => rfl
  | cons p ps ih =>
    rw [wellFormed_cons] at h
    rw [render_cons, fillTok_cons]
    cases p with
    | lit s =>
      have hs : '\x7b' ∉ s := h.1
      show replaceLoop k.text v 0 (s ++ render ps) = s ++ fillTok k v ps
      rw [← ih h.2]
      conv_lhs => rw [hk]
      conv_rhs => rw [hk]
      exact replaceLoop_no_match _ _ _ _ _ hs
    | tok j =>
      rw [render_tok]
      by_cases hj : j = k
      · subst hj
        show _ = (if j = j then v else j.text) ++ _
        rw [if_pos rfl, ← ih h.2]
        conv_lhs => rw [hk]
        conv_rhs => rw [hk]
        exact replaceLoop_match _ _ _ _
      · show _ = (if j = k then v else j.text) ++ _
        rw [if_neg hj, ← ih h.2]
        exact replaceLoop_other_tok k j hj v _

/-- One pass of `strings.Replace` over a well formed tokenized text
replaces exactly the pieces that are its placeholder. -/
theorem replaceAll_render (k : Tok) (v : Str) (ps : List Part) (h : wellFormed ps) :
    ReplaceAll (render ps) k.text v = fillTok k v ps := by
  obtain ⟨os, hk, _⟩ := tok_text_shape k
  rw [← replaceLoop_render k v ps h, hk]
  rfl

theorem fillTok_render (k : Tok) (vs ps : List Part) :
    fillTok k (render vs) ps = render (bindTok k vs ps) := by
  induction ps with
  | nil => rfl
  | cons p ps ih =>
    rw [fillTok_cons, ih]
    have : bindTok k vs (p :: ps) = (if p = .tok k then vs else [p]) ++ bindTok k vs ps := by
      simp [bindTok]
    rw [this, render_append]
    congr 1
    cases p with
    | lit s => simp [fillPart, render, substitute, substitutePart]
    | tok j =>
      by_cases hj : j = k
      · simp [fillPart, hj]
      · simp [fillPart, hj, render_cons, render_tok, render, substitute]

theorem wellFormed_bindTok (k : Tok) (vs ps : List Part) (hv : wellFormed vs)
    (hp : wellFormed ps) : wellFormed (bindTok k vs ps) := by
  induction ps with
  | nil => simp [bindTok, wellFormed]
  | cons p ps ih =>
    rw [wellFormed_cons] at hp
    have : bindTok k vs (p :: ps) = (if p = .tok k then vs else [p]) ++ bindTok k vs ps := by
      simp [bindTok]
    rw [this, wellFormed_append]
    refine ⟨?_, ih hp.2⟩
    split
    · exact hv
    · intro q hq
      rw [List.mem_singleton] at hq
      exact hq ▸ hp.1

theorem substitute_cons (T C A : Str) (p : Part) (ps : List Part) :
    substitute T C A (p :: ps) = substitutePart T C A p ++ substitute T C A ps := by
  simp [substitute]

theorem substitute_append (T C A : Str) (ps qs : List Part) :
    substitute T C A (ps ++ qs) = substitute T C A ps ++ substitute T C A qs := by
  simp [substitute]

theorem fillTok_author (A : Str) (ps : List Part) :
    fillTok .author A ps = substitute titleToken contentTypeToken A ps := by
  induction ps with
  | nil => rfl
  | cons p ps ih =>
    rw [fillTok_cons, substitute_cons, ih]
    congr 1
    cases p with
    | lit s => rfl
    | tok k => cases k <;> rfl

theorem bindTok_cons (k : Tok) (vs : List Part) (p : Part) (ps : List Part) :
    bindTok k vs (p :: ps) = (if p = .tok k then vs else [p]) ++ bindTok k vs ps := by
  simp [bindTok]

theorem substitute_bind_contentType (T C A : Str) (vs ps : List Part) :
    substitute T C A (bindTok .contentType vs ps) = substitute T (substitute T C A vs) A ps := by
  induction ps with
  | nil => rfl
  | cons p ps ih =>
    rw [bindTok_cons, substitute_append, ih, substitute_cons]
    congr 1
    cases p with
    | lit s => simp [substitute, substitutePart]
    | tok k => cases k <;> simp [substitute, substitutePart]

theorem substitute_bind_title (T C A : Str) (vs ps : List Part) :
    substitute T C A (bindTok .title vs ps) = substitute (substitute T C A vs) C A ps := by
  induction ps with
  | nil => rfl
  | cons p ps ih =>
    rw [bindTok_cons, substitute_append, ih, substitute_cons]
    congr 1
    cases p with
    | lit s => simp [substitute, substitutePart]
    | tok k => cases k <;> simp [substitute, substitutePart]

/-- The three passes of `defaultContent` over tokenized template, label and
title: what each placeholder of the template ends up as. -/
theorem defaultContent_tokenized (config : Config) (ps tps lps : List Part)
    (hps : wellFormed ps) (htps : wellFormed tps) (hlps : wellFormed lps) :
    defaultContent config (render ps) (render lps) (render tps) =
      substitute
        (substitute titleToken (substitute titleToken contentTypeToken config.Author lps)
          config.Author tps)
        (substitute titleToken contentTypeToken config.Author lps) config.Author ps := by
  unfold defaultContent
  have h1 := replaceAll_render .title (render tps) ps hps
  rw [fillTok_render] at h1
  have w1 := wellFormed_bindTok .title tps ps htps hps
  have h2 := replaceAll_render .contentType (render lps) _ w1
  rw [fillTok_render] at h2
  have w2 := wellFormed_bindTok .contentType lps _ hlps w1
  have h3 := replaceAll_render .author config.Author _ w2
  rw [fillTok_author, substitute_bind_contentType, substitute_bind_title] at h3
  show ReplaceAll (ReplaceAll (ReplaceAll (render ps) Tok.title.text (render tps))
    Tok.contentType.text (render lps)) Tok.author.text config.Author = _
  rw [h1, h2, h3]

theorem render_lit (s : Str) : render [.lit s] = s := by
  simp [render, substitute, substitutePart]

theorem substitute_lit (T C A s : Str) : substitute T C A [.lit s] = s := by
  simp [substitute, substitutePart]

theorem braceFree_append (a b : Str) : braceFree (a ++ b) ↔ braceFree a ∧ braceFree b := by
  simp [braceFree, not_or]

theorem braceFree_substitute (T C A : Str) (ps : List Part) (h : wellFormed ps)
    (hT : .tok .title ∈ ps → braceFree T) (hC : .tok .contentType ∈ ps → braceFree C)
    (hA : .tok .author ∈ ps → braceFree A) : braceFree (substitute T C A ps) := by
  induction ps with
  | nil => simp [substitute, braceFree]
  | cons p ps ih =>
    rw [wellFormed_cons] at h
    rw [substitute_cons, braceFree_append]
    refine ⟨?_, ih h.2 (fun m => hT (List.mem_cons_of_mem _ m))
      (fun m => hC (List.mem_cons_of_mem _ m)) (fun m => hA (List.mem_cons_of_mem _ m))⟩
    cases p with
    | lit s => exact h.1
    | tok k =>
      cases k
      · exact hT (List.mem_cons_self _ _)
      · exact hC (List.mem_cons_self _ _)
      · exact hA (List.mem_cons_self _ _)

theorem brace_mem_render (k : Tok) (ps : List Part) (h : .tok k ∈ ps) :
    '\x7b' ∈ render ps := by
  induction ps with
  | nil => simp at h
  | cons p ps ih =>
    rw [render_cons, List.mem_append]
    rcases List.mem_cons.1 h with h1 | h1
    · left
      rw [← h1, render_tok]
      obtain ⟨os, hk, _⟩ := tok_text_shape k
      rw [hk]
      exact List.mem_cons_self _ _
    · exact Or.inr (ih h1)

/-! ## Title casing -/

theorem replaceLoop_single (a b : Char) (s : Str) :
    replaceLoop [a] [b] 0 s = s.map (fun c => if c = a then b else c) := by
  induction s with
  | nil => rfl
  | cons c cs ih =>
    rw [replaceLoop, hasPrefix_cons_single]
    by_cases h : c = a
    · simp [h, ih]
    · simp [h, ih]

theorem replaceAll_dash_underscore (s : Str) :
    ReplaceAll (ReplaceAll s "-".toList " ".toList) "_".toList " ".toList = s.map spaced := by
  show replaceLoop ['_'] [' '] 0 (replaceLoop ['-'] [' '] 0 s) = _
  rw [replaceLoop_single, replaceLoop_single, List.map_map]
  apply List.map_congr_left
  intro c _
  simp only [Function.comp, spaced]
  by_cases h1 : c = '-'
  · simp [h1]
  · by_cases h2 : c = '_'
    · simp [h2]
    · simp [h1, h2]

theorem isSpace_of_letter (c : Char) (h : isAsciiLetter c = true) : IsSpace c = false := by
  simp only [isAsciiLetter, isUpperAscii, isLowerAscii, Bool.or_eq_true, Bool.and_eq_true,
    decide_eq_true_eq] at h
  have e1 : 'A'.toNat = 65 := rfl
  have e2 : 'Z'.toNat = 90 := rfl
  have e3 : 'a'.toNat = 97 := rfl
  have e4 : 'z'.toNat = 122 := rfl
  rw [e1, e2, e3, e4] at h
  simp only [IsSpace, Bool.or_eq_false_iff, Bool.and_eq_false_imp, decide_eq_false_iff_not,
    decide_eq_true_eq]
  omega

theorem asciiData_asciiLetters : asciiData.asciiLetters := by
  refine ⟨?_, by decide, by decide⟩
  intro c hc
  exact ⟨hc, rfl, fun _ => rfl⟩

theorem titleLoop_eq_tokenCase (u : CaseData) (hu : u.asciiLetters) (m : Bool) (s : Str)
    (h : ∀ c ∈ s, isAsciiLetter c = true ∨ c = ' ') :
    titleLoop u m false s = tokenCase true (!m) s := by
  induction s generalizing m with
  | nil => rfl
  | cons c cs ih =>
    have hcs : ∀ c ∈ cs, isAsciiLetter c = true ∨ c = ' ' :=
      fun x hx => h x (List.mem_cons_of_mem _ hx)
    rcases h c (List.mem_cons_self _ _) with hc | hc
    · obtain ⟨k1, k2, k3⟩ := hu.1 c hc
      rw [titleLoop, tokenCase]
      simp only [k1, k2, k3, isSpace_of_letter c hc, Bool.false_and, Bool.not_true,
        Bool.and_false, Bool.false_eq_true, if_false, if_true]
      rw [ih true hcs]
      cases m <;> simp
    · subst hc
      rw [titleLoop, tokenCase]
      have b3 : IsSpace ' ' = true := by decide
      simp only [hu.2.1, hu.2.2, b3, Bool.false_and, Bool.false_eq_true, if_false, if_true,
        reduceCtorEq, decide_False, Bool.and_false]
      rw [ih false hcs]
      rfl

/-- Whatever came before, the text after a cased rune is processed in the
middle of a word. -/
theorem titleLoop_after_cased (u : CaseData) (pre : Str) (a : Char) (s : Str)
    (ha : u.cased a = true) (m w : Bool) :
    titleLoop u true false s <:+ titleLoop u m w (pre ++ a :: s) := by
  induction pre generalizing m w with
  | nil =>
    rw [List.nil_append, titleLoop]
    simp only [ha, Bool.not_true, Bool.and_false, if_true]
    exact List.suffix_append _ _
  | cons c cs ih =>
    rw [List.cons_append, titleLoop]
    split
    · exact (ih _ _).trans (List.suffix_append _ _)
    · exact (ih _ _).trans (List.suffix_cons _ _)

/-- Whatever came before, the text after an uncased rune of class `brk` is
processed as the start of a word. -/
theorem titleLoop_after_break (u : CaseData) (pre : Str) (x : Char) (s : Str)
    (hx : u.cased x = false) (hb : u.cat x = .brk) (m w : Bool) :
    titleLoop u false false s <:+ titleLoop u m w (pre ++ x :: s) := by
  induction pre generalizing m w with
  | nil =>
    rw [List.nil_append, titleLoop]
    simp only [hx, hb, reduceCtorEq, decide_False, Bool.false_and, Bool.false_eq_true,
      if_false, if_true]
    exact List.suffix_cons _ _
  | cons c cs ih =>
    rw [List.cons_append, titleLoop]
    split
    · exact (ih _ _).trans (List.suffix_append _ _)
    · exact (ih _ _).trans (List.suffix_cons _ _)

theorem titleLoop_cased_cons (u : CaseData) (m : Bool) (b : Char) (s : Str)
    (hb : u.cased b = true) :
    titleLoop u m false (b :: s) =
      (if m then u.lower b s else u.title b) ++ titleLoop u true false s := by
  rw [titleLoop]
  simp only [hb, Bool.not_true, Bool.and_false, Bool.false_and, Bool.false_eq_true, if_false,
    if_true]

theorem spaced_letter_or_space (stem : Str)
    (h : ∀ c ∈ stem, isAsciiLetter c = true ∨ c = '-' ∨ c = '_' ∨ c = ' ') :
    ∀ c ∈ stem.map spaced, isAsciiLetter c = true ∨ c = ' ' := by
  intro c hc
  obtain ⟨d, hd, rfl⟩ := List.mem_map.1 hc
  rcases h d hd with h1 | h1 | h1 | h1
  · left
    have n1 : d ≠ '-' := by
      rintro rfl
      exact absurd h1 (by decide)
    have n2 : d ≠ '_' := by
      rintro rfl
      exact absurd h1 (by decide)
    simpa [spaced, n1, n2] using h1
  · right
    simp [spaced, h1]
  · right
    simp [spaced, h1]
  · right
    simp [spaced, h1]

/-- The stem `processFileName` takes the title from: the returned name is
the stem followed by `.md` or `.html`. -/
theorem processFileName_stem (u : CaseData) (f : Str) :
    ∃ stem ext, (ext = ".md".toList ∨ ext = ".html".toList) ∧
      (processFileName u f).1 = stem ++ ext ∧
      (processFileName u f).2 = Title u (stem.map spaced) := by
  by_cases h : Ext f ≠ ".md".toList ∧ Ext f ≠ ".html".toList
  · refine ⟨f, ".md".toList, Or.inl rfl, ?_, ?_⟩
    · simp only [processFileName, h, ne_eq, not_false_eq_true, and_self, decide_True, if_true]
    · simp only [processFileName, h, ne_eq, not_false_eq_true, and_self, decide_True, if_true,
        trimSuffix_append, replaceAll_dash_underscore]
  · obtain ⟨stem, hs⟩ := ext_suffix f
    have he : Ext f = ".md".toList ∨ Ext f = ".html".toList := by
      by_cases h1 : Ext f = ".md".toList
      · exact Or.inl h1
      · by_cases h2 : Ext f = ".html".toList
        · exact Or.inr h2
        · exact absurd ⟨h1, h2⟩ h
    refine ⟨stem, Ext f, he, ?_, ?_⟩
    · simp only [processFileName, h, decide_False, Bool.false_eq_true, if_false]
      exact hs.symm
    · have ht := trimSuffix_append stem (Ext f)
      rw [hs] at ht
      simp only [processFileName, h, decide_False, Bool.false_eq_true, if_false, ht,
        replaceAll_dash_underscore]

/-! ## Traces -/

theorem creates_append (a b : List Event) : creates (a ++ b) = creates a ++ creates b := by
  induction a with
  | nil => rfl
  | cons e es ih => cases e <;> simp [creates, ih]

theorem launches_append (a b : List Event) : launches (a ++ b) = launches a ++ launches b := by
  induction a with
  | nil => rfl
  | cons e es ih => cases e <;> simp [launches, ih]

theorem searches_append (a b : List Event) : searches (a ++ b) = searches a ++ searches b := by
  induction a with
  | nil => rfl
  | cons e es ih => cases e <;> simp [searches, ih]

theorem reads_append (a b : List Event) : reads (a ++ b) = reads a + reads b := by
  induction a with
  | nil => simp [reads]
  | cons e es ih => cases e <;> simp [reads, ih]; omega

theorem editorStep_result {σ : Type} (sys : Sys σ) (config : Config) (path : Str) (w : σ) :
    (editorStep sys config path w).result = none := by
  unfold editorStep
  split
  · dsimp only
    split <;> rfl
  · rfl

theorem editorStep_creates {σ : Type} (sys : Sys σ) (config : Config) (path : Str) (w : σ) :
    creates (editorStep sys config path w).trace = [] ∧
    searches (editorStep sys config path w).trace = [] ∧
    reads (editorStep sys config path w).trace = 0 := by
  unfold editorStep
  split
  · dsimp only
    split <;> simp [openFileInEditor, creates, searches, reads, creates_append,
      searches_append, reads_append]
  · simp [creates, searches, reads]

theorem editorStep_launches {σ : Type} (sys : Sys σ) (config : Config) (path : Str) (w : σ) :
    launches (editorStep sys config path w).trace =
      if config.Editor ≠ [] ∧ config.Editor ≠ "none".toList then [(config.Editor, [path])]
      else [] := by
  unfold editorStep
  split
  · dsimp only
    split <;> simp [openFileInEditor, launches, launches_append]
  · simp [launches]

/-! ## The runs of `createNewContent`, one lemma per path through it -/

section Runs

variable {σ : Type} (sys : Sys σ) (u : CaseData) (global : Config) (NewMD : Str)
  (c : Command)
  (config : Config) (t f : Str)

theorem run_write_fails (w0 w1 : σ) (err : Str)
    (h1 : sys.Create (destination u config t f) (body u global NewMD t f) w0 = (some err, w1)) :
    (createNewContent sys u global NewMD c config t f w0).result =
        some ("failed to create ".toList ++ destination u config t f ++ ": ".toList ++ err) ∧
    (createNewContent sys u global NewMD c config t f w0).trace =
        [Event.log .info "Creating new %s in %s".toList [contentTypeOf t, config.ContentDirectory],
         Event.create (destination u config t f) (body u global NewMD t f)] := by
  unfold destination body at h1
  simp only [createNewContent, h1, destination, body, List.singleton_append, and_self]

theorem run_search_fails (w0 w1 w2 : σ) (found : Bool) (err : Str)
    (h1 : sys.Create (destination u config t f) (body u global NewMD t f) w0 = (none, w1))
    (h2 : sys.ExistsRecursive (templateName t) "template".toList w1 = ((found, some err), w2)) :
    (createNewContent sys u global NewMD c config t f w0).result = none ∧
    creates (createNewContent sys u global NewMD c config t f w0).trace =
        [(destination u config t f, body u global NewMD t f)] ∧
    reads (createNewContent sys u global NewMD c config t f w0).trace = 0 ∧
    launches (createNewContent sys u global NewMD c config t f w0).trace = [] := by
  unfold destination body at h1
  unfold templateName at h2
  simp only [createNewContent, h1, h2, destination, body, creates, reads, launches,
    List.singleton_append, List.cons_append, List.nil_append, and_self]

theorem run_found (w0 w1 w2 : σ)
    (h1 : sys.Create (destination u config t f) (body u global NewMD t f) w0 = (none, w1))
    (h2 : sys.ExistsRecursive (templateName t) "template".toList w1 = ((true, none), w2)) :
    (createNewContent sys u global NewMD c config t f w0).result = none ∧
    creates (createNewContent sys u global NewMD c config t f w0).trace =
        [(destination u config t f, body u global NewMD t f)] ∧
    reads (createNewContent sys u global NewMD c config t f w0).trace = 0 ∧
    launches (createNewContent sys u global NewMD c config t f w0).trace =
        launches (editorStep sys config (destination u config t f) w2).trace := by
  unfold destination body at h1
  unfold templateName at h2
  have e := editorStep_creates sys config (destination u config t f) w2
  unfold destination at e
  simp only [createNewContent, h1, h2, destination, body, creates, reads, launches,
    List.singleton_append, List.cons_append, List.nil_append, and_self, editorStep_result,
    creates_append, reads_append, launches_append, e, true_and, Nat.add_zero, Nat.zero_add]

theorem run_read_fails (w0 w1 w2 w3 : σ) (line err : Str)
    (h1 : sys.Create (destination u config t f) (body u global NewMD t f) w0 = (none, w1))
    (h2 : sys.ExistsRecursive (templateName t) "template".toList w1 = ((false, none), w2))
    (h3 : sys.ReadString w2 = ((line, some err), w3)) :
    (createNewContent sys u global NewMD c config t f w0).result = none ∧
    creates (createNewContent sys u global NewMD c config t f w0).trace =
        [(destination u config t f, body u global NewMD t f)] ∧
    reads (createNewContent sys u global NewMD c config t f w0).trace = 1 ∧
    launches (createNewContent sys u global NewMD c config t f w0).trace = [] := by
  unfold destination body at h1
  unfold templateName at h2
  simp only [createNewContent, h1, h2, h3, destination, body, creates, reads, launches,
    List.singleton_append, List.cons_append, List.nil_append, and_self]

theorem run_declined (w0 w1 w2 w3 : σ) (line : Str)
    (h1 : sys.Create (destination u config t f) (body u global NewMD t f) w0 = (none, w1))
    (h2 : sys.ExistsRecursive (templateName t) "template".toList w1 = ((false, none), w2))
    (h3 : sys.ReadString w2 = ((line, none), w3))
    (h4 : ¬ accepts line) :
    (createNewContent sys u global NewMD c config t f w0).result = none ∧
    creates (createNewContent sys u global NewMD c config t f w0).trace =
        [(destination u config t f, body u global NewMD t f)] ∧
    reads (createNewContent sys u global NewMD c config t f w0).trace = 1 ∧
    launches (createNewContent sys u global NewMD c config t f w0).trace =
        launches (editorStep sys config (destination u config t f) w3).trace := by
  unfold destination body at h1
  unfold templateName at h2
  unfold accepts at h4
  have e := editorStep_creates sys config (destination u config t f) w3
  unfold destination at e
  simp only [createNewContent, h1, h2, h3, h4, if_false, destination, body, creates, reads,
    launches, List.singleton_append, List.cons_append, List.nil_append, and_self,
    editorStep_result, creates_append, reads_append, launches_append, e, true_and,
    Nat.add_zero, Nat.zero_add]

theorem run_template_fails (w0 w1 w2 w3 w4 : σ) (line err : Str)
    (h1 : sys.Create (destination u config t f) (body u global NewMD t f) w0 = (none, w1))
    (h2 : sys.ExistsRecursive (templateName t) "template".toList w1 = ((false, none), w2))
    (h3 : sys.ReadString w2 = ((line, none), w3))
    (h4 : accepts line)
    (h5 : sys.Create ("template/".toList ++ templateName t)
        ("DefaultTemplate_".toList ++ config.Theme) w3 = (some err, w4)) :
    (createNewContent sys u global NewMD c config t f w0).result = none ∧
    creates (createNewContent sys u global NewMD c config t f w0).trace =
        [(destination u config t f, body u global NewMD t f),
         ("template/".toList ++ templateName t, "DefaultTemplate_".toList ++ config.Theme)] ∧
    reads (createNewContent sys u global NewMD c config t f w0).trace = 1 ∧
    launches (createNewContent sys u global NewMD c config t f w0).trace = [] := by
  unfold destination body at h1
  unfold templateName at h2 h5
  unfold accepts at h4
  simp only [createNewContent, h1, h2, h3, h4, h5, if_true, destination, body, creates, reads,
    launches, templateName, List.singleton_append, List.cons_append, List.nil_append, and_self]

theorem run_template_created (w0 w1 w2 w3 w4 : σ) (line : Str)
    (h1 : sys.Create (destination u config t f) (body u global NewMD t f) w0 = (none, w1))
    (h2 : sys.ExistsRecursive (templateName t) "template".toList w1 = ((false, none), w2))
    (h3 : sys.ReadString w2 = ((line, none), w3))
    (h4 : accepts line)
    (h5 : sys.Create ("template/".toList ++ templateName t)
        ("DefaultTemplate_".toList ++ config.Theme) w3 = (none, w4)) :
    (createNewContent sys u global NewMD c config t f w0).result = none ∧
    creates (createNewContent sys u global NewMD c config t f w0).trace =
        [(destination u config t f, body u global NewMD t f),
         ("template/".toList ++ templateName t, "DefaultTemplate_".toList ++ config.Theme)] ∧
    reads (createNewContent sys u global NewMD c config t f w0).trace = 1 ∧
    launches (createNewContent sys u global NewMD c config t f w0).trace =
        launches (editorStep sys config (destination u config t f) w4).trace := by
  unfold destination body at h1
  unfold templateName at h2 h5
  unfold accepts at h4
  have e := editorStep_creates sys config (destination u config t f) w4
  unfold destination at e
  simp only [createNewContent, h1, h2, h3, h4, h5, if_true, destination, body, creates, reads,
    launches, templateName, List.singleton_append, List.cons_append, List.nil_append, and_self,
    editorStep_result, creates_append, reads_append, launches_append, e, true_and,
    Nat.add_zero, Nat.zero_add, List.append_nil, List.append_assoc]

theorem run_write_ok_searches (w0 w1 : σ)
    (h1 : sys.Create (destination u config t f) (body u global NewMD t f) w0 = (none, w1)) :
    searches (createNewContent sys u global NewMD c config t f w0).trace =
      [(templateName t, "template".toList)] := by
  unfold destination body at h1
  simp only [createNewContent, h1, templateName]
  split
  · simp only [searches, List.singleton_append, List.cons_append, List.nil_append]
  · simp only [searches, List.singleton_append, List.cons_append, List.nil_append,
      List.append_eq, (editorStep_creates sys config _ _).2.1]
  · split
    · simp only [searches, List.singleton_append, List.cons_append, List.nil_append]
    · split
      · split
        · simp only [searches, List.singleton_append, List.cons_append, List.nil_append]
        · simp only [searches, List.singleton_append, List.cons_append, List.nil_append,
            List.append_eq, searches_append, (editorStep_creates sys config _ _).2.1]
      · simp only [searches, List.singleton_append, List.cons_append, List.nil_append,
          List.append_eq, searches_append, (editorStep_creates sys config _ _).2.1]

theorem run_result_none_of_write_ok (w0 w1 : σ)
    (h1 : sys.Create (destination u config t f) (body u global NewMD t f) w0 = (none, w1)) :
    (createNewContent sys u global NewMD c config t f w0).result = none := by
  unfold destination body at h1
  simp only [createNewContent, h1]
  split
  · rfl
  · exact editorStep_result _ _ _ _
  · split
    · rfl
    · split
      · split
        · rfl
        · exact editorStep_result _ _ _ _
      · exact editorStep_result _ _ _ _

theorem run_launches_cases (w0 : σ) :
    launches (createNewContent sys u global NewMD c config t f w0).trace = [] ∨
    ∃ w, launches (createNewContent sys u global NewMD c config t f w0).trace =
      launches (editorStep sys config (destination u config t f) w).trace := by
  simp only [createNewContent, destination]
  split
  · left
    simp only [launches, List.singleton_append, List.cons_append, List.nil_append]
  · split
    · left
      simp only [launches, List.singleton_append, List.cons_append, List.nil_append]
    · rename_i w2 _
      right
      refine ⟨w2, ?_⟩
      simp only [launches, List.singleton_append, List.cons_append, List.nil_append,
        List.append_eq]
    · split
      · left
        simp only [launches, List.singleton_append, List.cons_append, List.nil_append]
      · split
        · split
          · left
            simp only [launches, List.singleton_append, List.cons_append, List.nil_append]
          · rename_i w4 _
            right
            refine ⟨w4, ?_⟩
            simp only [launches, List.singleton_append, List.cons_append,
              List.nil_append, List.append_eq, launches_append]
        · rename_i w3 _ _
          right
          refine ⟨w3, ?_⟩
          simp only [launches, List.singleton_append, List.cons_append,
            List.nil_append, List.append_eq, launches_append]

end Runs

/-! ## Properties of `processFileName` -/

/-- C1: the file name returned by `processFileName` is the raw name itself
when its extension (the suffix starting at the last `.` of the last
`/`-separated element) is exactly `.md` or `.html`, and the raw name followed
by `.md` in every other case; so it always ends in `.md` or `.html` and
always begins with the raw name. -/
theorem processFileName_normalizes (u : CaseData) (f : Str) :
    Ext f = extensionOf f ∧
    ((extensionOf f = ".md".toList ∨ extensionOf f = ".html".toList) →
      (processFileName u f).1 = f) ∧
    (¬ (extensionOf f = ".md".toList ∨ extensionOf f = ".html".toList) →
      (processFileName u f).1 = f ++ ".md".toList) ∧
    (".md".toList <:+ (processFileName u f).1 ∨ ".html".toList <:+ (processFileName u f).1) ∧
    f <+: (processFileName u f).1 := by
  have he := ext_eq_extensionOf f
  have hs := ext_suffix f
  rw [he] at hs
  have key : (processFileName u f).1 =
      if extensionOf f ≠ ".md".toList ∧ extensionOf f ≠ ".html".toList then f ++ ".md".toList
      else f := by
    simp only [processFileName, he]
    by_cases h : extensionOf f ≠ ".md".toList ∧ extensionOf f ≠ ".html".toList
    · simp only [h, ne_eq, not_false_eq_true, and_self, decide_True, if_true]
    · rw [if_neg h]
      simp only [h, decide_False, Bool.false_eq_true, if_false]
  refine ⟨he, ?_, ?_, ?_, ?_⟩
  · intro h
    rw [key, if_neg]
    rintro ⟨h1, h2⟩
    rcases h with h | h
    · exact h1 h
    · exact h2 h
  · intro h
    rw [key, if_pos]
    exact ⟨fun h1 => h (Or.inl h1), fun h2 => h (Or.inr h2)⟩
  · rw [key]
    by_cases h1 : extensionOf f = ".md".toList
    · rw [if_neg (fun hh => hh.1 h1)]
      exact Or.inl (h1 ▸ hs)
    · by_cases h2 : extensionOf f = ".html".toList
      · rw [if_neg (fun hh => hh.2 h2)]
        exact Or.inr (h2 ▸ hs)
      · rw [if_pos ⟨h1, h2⟩]
        exact Or.inl (List.suffix_append _ _)
  · rw [key]
    split
    · exact List.prefix_append _ _
    · exact List.prefix_refl _

theorem processFileName_normalizes_witness :
    (processFileName asciiData "a.b/notes.txt".toList).1 = "a.b/notes.txt.md".toList ∧
    (processFileName asciiData "draft1.html".toList).1 = "draft1.html".toList ∧
    (processFileName asciiData "dir.md/post".toList).1 = "dir.md/post.md".toList :=
  ⟨(processFileName_normalizes asciiData "a.b/notes.txt".toList).2.2.1 (by decide),
   (processFileName_normalizes asciiData "draft1.html".toList).2.1 (by decide),
   (processFileName_normalizes asciiData "dir.md/post".toList).2.2.1 (by decide)⟩

/-- C2, claim as stated refuted: for the raw name `myPost` the stem is
`myPost`; the rule of the claim (first letter of each white space separated
token capitalized, rest unchanged) gives `MyPost`, but `processFileName`
returns the title `Mypost`: the caser lower-cases the rest of the word. Its
words are not the white space separated tokens either: `a+b` gives `A+B`. -/
theorem title_lowercases_rest_of_word :
    processFileName asciiData "myPost".toList = ("myPost.md".toList, "Mypost".toList) ∧
    titleAsClaimed "myPost".toList = "MyPost".toList ∧
    (processFileName asciiData "myPost".toList).2 ≠ titleAsClaimed "myPost".toList ∧
    processFileName asciiData "a+b".toList = ("a+b.md".toList, "A+B".toList) ∧
    titleAsClaimed "a+b".toList = "A+b".toList := by
  decide

/-- C2, amended: for every raw file name, the title returned by
`processFileName` is the result of the English title caser on the stem (the
returned file name without its final `.md` or `.html`) with every `-` and `_`
replaced by a space. In that text, whatever the Unicode data: a cased letter
at the start, or right after an uncased word-ending character such as a
space, is replaced by its title case mapping, and a cased letter right after
a cased letter is replaced by its lower case mapping (it does not keep its
case). For a stem made of ASCII letters, `-`, `_` and spaces, the title is the
stem with `-` and `_` replaced by spaces, the first letter of each space
separated token capitalized and the rest of the token lower-cased. -/
theorem processFileName_title (u : CaseData) (f stem ext : Str)
    (he : ext = ".md".toList ∨ ext = ".html".toList)
    (h : (processFileName u f).1 = stem ++ ext) :
    (processFileName u f).2 = Title u (stem.map spaced) ∧
    (∀ b post, stem.map spaced = b :: post → u.cased b = true →
      (processFileName u f).2 = u.title b ++ titleLoop u true false post) ∧
    (∀ pre x b post, stem.map spaced = pre ++ x :: b :: post →
      u.cased x = false → u.cat x = .brk → u.cased b = true →
      (u.title b ++ titleLoop u true false post) <:+ (processFileName u f).2) ∧
    (∀ pre a b post, stem.map spaced = pre ++ a :: b :: post →
      u.cased a = true → u.cased b = true →
      (u.lower b post ++ titleLoop u true false post) <:+ (processFileName u f).2) ∧
    (u.asciiLetters →
      (∀ c ∈ stem, isAsciiLetter c = true ∨ c = '-' ∨ c = '_' ∨ c = ' ') →
      (processFileName u f).2 = titleLowered stem) := by
  obtain ⟨stem1, ext1, he1, h1, h2⟩ := processFileName_stem u f
  have hs : stem1 = stem := by
    rw [h] at h1
    have hr := congrArg List.reverse h1
    simp only [List.reverse_append] at hr
    rcases he with he | he <;> rcases he1 with he1 | he1 <;> subst he <;> subst he1
    · exact (List.append_cancel_right h1).symm
    · exact absurd hr (by simp)
    · exact absurd hr (by simp)
    · exact (List.append_cancel_right h1).symm
  subst hs
  refine ⟨h2, ?_, ?_, ?_, ?_⟩
  · intro b post hb hc
    rw [h2, hb]
    exact titleLoop_cased_cons u false b post hc
  · intro pre x b post hb hx hk hc
    rw [h2, hb]
    have := titleLoop_after_break u pre x (b :: post) hx hk false false
    rw [titleLoop_cased_cons u false b post hc] at this
    exact this
  · intro pre a b post hb ha hc
    rw [h2, hb]
    have := titleLoop_after_cased u pre a (b :: post) ha false false
    rw [titleLoop_cased_cons u true b post hc] at this
    exact this
  · intro hu hl
    rw [h2]
    exact titleLoop_eq_tokenCase u hu false _ (spaced_letter_or_space stem1 hl)

theorem processFileName_title_witness :
    (processFileName asciiData "my-first-post".toList).2 = "My First Post".toList ∧
    (processFileName asciiData "my_Second-POST.html".toList).2 = "My Second Post".toList ∧
    "ost".toList <:+ (processFileName asciiData "myPost".toList).2 :=
  ⟨((processFileName_title asciiData "my-first-post".toList "my-first-post".toList
      ".md".toList (Or.inl rfl) (by decide)).2.2.2.2 asciiData_asciiLetters
      (by decide)).trans (by decide),
   ((processFileName_title asciiData "my_Second-POST.html".toList "my_Second-POST".toList
      ".html".toList (Or.inr rfl) (by decide)).2.2.2.2 asciiData_asciiLetters
      (by decide)).trans (by decide),
   (processFileName_title asciiData "myPost".toList "myPost".toList ".md".toList (Or.inl rfl)
      (by decide)).2.2.2.1 "my".toList 'P' 'o' "st".toList (by decide) (by decide) (by decide)⟩

/-! ## Properties of `defaultContent` -/

/-- C7: `defaultContent` replaces every occurrence, not only the first, of
the title, content type and author placeholders by the title, the label and
the configured author name, by literal text replacement: each of its three
passes cuts the text at every occurrence of its placeholder and joins the
pieces with the value; and on a template made of brace free text and
placeholders, with brace free title and label, the result is the template
with every placeholder replaced by its value. -/
theorem defaultContent_replaces_every_occurrence (config : Config) :
    (∀ NewMD contentType title : Str,
      defaultContent config NewMD contentType title =
        List.intercalate config.Author
          (Split (List.intercalate contentType
            (Split (List.intercalate title (Split NewMD titleToken)) contentTypeToken))
            authorToken)) ∧
    (∀ (ps : List Part) (contentType title : Str),
      wellFormed ps → braceFree title → braceFree contentType →
      defaultContent config (render ps) contentType title =
        substitute title contentType config.Author ps) := by
  constructor
  · intro NewMD contentType title
    show ReplaceAll (ReplaceAll (ReplaceAll NewMD titleToken title) contentTypeToken contentType)
      authorToken config.Author = _
    rw [replaceAll_eq_join_split _ titleToken _ (by decide),
      replaceAll_eq_join_split _ contentTypeToken _ (by decide),
      replaceAll_eq_join_split _ authorToken _ (by decide)]
  · intro ps contentType title hps ht hc
    have h := defaultContent_tokenized config ps [.lit title] [.lit contentType] hps
      (by
        intro p hp
        rw [List.mem_singleton] at hp
        exact hp ▸ ht)
      (by
        intro p hp
        rw [List.mem_singleton] at hp
        exact hp ▸ hc)
    rw [render_lit, render_lit, substitute_lit, substitute_lit] at h
    exact h

theorem defaultContent_replaces_every_occurrence_witness :
    defaultContent sampleConfig sampleNewMD "blog".toList "My First Post".toList =
      "title: My First Post\ntype: blog\nauthor: Ann\n# My First Post\n".toList :=
  (defaultContent_replaces_every_occurrence sampleConfig).2 sampleParts "blog".toList
    "My First Post".toList (by decide) (by decide) (by decide)

/-- C10, claim as stated refuted: the template contains the content type
placeholder, the label contains the author placeholder and the author name
`\x7bauthor\x7d!` differs from the placeholder, yet the label appears
verbatim in the result. -/
theorem label_verbatim_despite_author_pass :
    Contains contentTypeToken contentTypeToken = true ∧
    Contains authorToken authorToken = true ∧
    "\x7bauthor\x7d!".toList ≠ authorToken ∧
    defaultContent { sampleConfig with Author := "\x7bauthor\x7d!".toList } contentTypeToken
        authorToken "t".toList = "\x7bauthor\x7d!".toList ∧
    authorToken <:+:
      defaultContent { sampleConfig with Author := "\x7bauthor\x7d!".toList } contentTypeToken
        authorToken "t".toList := by
  refine ⟨by decide, by decide, by decide, by decide, ?_⟩
  exact ⟨[], ['!'], by decide⟩

/-- C10, amended: `defaultContent` applies its three replacements one after
the other (title, content type, author), each over the output of the previous
one, so it is not a simultaneous substitution. For template, label and title
made of brace free text and placeholders: a content type or author placeholder
inside the title and an author placeholder inside the label are themselves
replaced by the later passes, while a placeholder of an earlier or the same
pass inside a value stays as text. When moreover the author name is brace
free, the label has no other placeholder than the author one and the title no
title placeholder, a label or title that contains a placeholder does not
appear verbatim in the result. -/
theorem defaultContent_is_sequential (config : Config) (ps tps lps : List Part)
    (hps : wellFormed ps) (htps : wellFormed tps) (hlps : wellFormed lps) :
    defaultContent config (render ps) (render lps) (render tps) =
      substitute
        (substitute titleToken (substitute titleToken contentTypeToken config.Author lps)
          config.Author tps)
        (substitute titleToken contentTypeToken config.Author lps) config.Author ps ∧
    (braceFree config.Author → (∀ k, .tok k ∈ lps → k = .author) → (.tok .title ∉ tps) →
      (∀ k, .tok k ∈ lps →
        ¬ render lps <:+: defaultContent config (render ps) (render lps) (render tps)) ∧
      (∀ k, .tok k ∈ tps →
        ¬ render tps <:+: defaultContent config (render ps) (render lps) (render tps))) := by
  have key := defaultContent_tokenized config ps tps lps hps htps hlps
  refine ⟨key, ?_⟩
  intro hA hl ht
  have hC : braceFree (substitute titleToken contentTypeToken config.Author lps) :=
    braceFree_substitute _ _ _ lps hlps (fun m => by cases hl _ m)
      (fun m => by cases hl _ m) (fun _ => hA)
  have hT : braceFree (substitute titleToken
      (substitute titleToken contentTypeToken config.Author lps) config.Author tps) :=
    braceFree_substitute _ _ _ tps htps (fun m => absurd m ht) (fun _ => hC) (fun _ => hA)
  have hR : braceFree (defaultContent config (render ps) (render lps) (render tps)) := by
    rw [key]
    exact braceFree_substitute _ _ _ ps hps (fun _ => hT) (fun _ => hC) (fun _ => hA)
  constructor
  · intro k hk hin
    exact hR (hin.subset (brace_mem_render k lps hk))
  · intro k hk hin
    exact hR (hin.subset (brace_mem_render k tps hk))

theorem defaultContent_is_sequential_witness :
    defaultContent sampleConfig (render seqTemplate) (render seqLabel) (render seqTitle) =
      "type: post by Ann, title: post by Ann of Ann".toList ∧
    render seqTemplate = "type: \x7bcontentType\x7d, title: \x7btitle\x7d".toList ∧
    render seqLabel = "post by \x7bauthor\x7d".toList ∧
    render seqTitle = "\x7bcontentType\x7d of \x7bauthor\x7d".toList ∧
    ¬ render seqLabel <:+:
      defaultContent sampleConfig (render seqTemplate) (render seqLabel) (render seqTitle) := by
  have h := defaultContent_is_sequential sampleConfig seqTemplate seqTitle seqLabel
    (by decide) (by decide) (by decide)
  have hl : ∀ k, Part.tok k ∈ seqLabel → k = .author := by
    intro k hk
    cases k
    · exact absurd hk (by decide)
    · exact absurd hk (by decide)
    · rfl
  have hA : braceFree sampleConfig.Author := by decide
  have ht : Part.tok .title ∉ seqTitle := by decide
  have hm : Part.tok .author ∈ seqLabel := by decide
  have e : substitute
      (substitute titleToken (substitute titleToken contentTypeToken sampleConfig.Author seqLabel)
        sampleConfig.Author seqTitle)
      (substitute titleToken contentTypeToken sampleConfig.Author seqLabel) sampleConfig.Author
      seqTemplate = "type: post by Ann, title: post by Ann of Ann".toList := by decide
  have e1 : render seqTemplate = "type: \x7bcontentType\x7d, title: \x7btitle\x7d".toList := by
    decide
  have e2 : render seqLabel = "post by \x7bauthor\x7d".toList := by decide
  have e3 : render seqTitle = "\x7bcontentType\x7d of \x7bauthor\x7d".toList := by decide
  exact ⟨h.1.trans e, e1, e2, e3, (h.2 hA hl ht).1 .author hm⟩

/-! ## Properties of `createNewContent` -/

section Claims

variable {σ : Type} (sys : Sys σ) (u : CaseData) (global : Config) (NewMD : Str)
  (c : Command)
  (config : Config) (t f : Str)

theorem run_creates_head (w0 : σ) :
    (creates (createNewContent sys u global NewMD c config t f w0).trace).head? =
      some (destination u config t f, body u global NewMD t f) := by
  simp only [createNewContent, destination, body]
  split
  · simp only [creates, List.singleton_append, List.cons_append, List.nil_append, List.head?_cons]
  · split
    · simp only [creates, List.singleton_append, List.cons_append, List.nil_append,
        List.head?_cons]
    · simp only [creates, List.singleton_append, List.cons_append, List.nil_append,
        List.head?_cons]
    · split
      · simp only [creates, List.singleton_append, List.cons_append, List.nil_append,
          List.head?_cons]
      · split
        · split
          · simp only [creates, List.singleton_append, List.cons_append, List.nil_append,
              List.head?_cons]
          · simp only [creates, List.singleton_append, List.cons_append, List.nil_append,
              List.head?_cons]
        · simp only [creates, List.singleton_append, List.cons_append, List.nil_append,
            List.head?_cons]

/-- C3: the error returned by `createNewContent` is non-nil exactly when the
write of the content file (the first `filesystem.Create` call) fails; every
later failure (template search, prompt read, template creation, editor
launch) leaves the result nil. -/
theorem createNewContent_error_iff_write_fails (w0 : σ) :
    (createNewContent sys u global NewMD c config t f w0).result ≠ none ↔
      (sys.Create (destination u config t f) (body u global NewMD t f) w0).1 ≠ none := by
  rcases h : sys.Create (destination u config t f) (body u global NewMD t f) w0 with ⟨_ | err, w1⟩
  · simp [run_result_none_of_write_ok sys u global NewMD c config t f w0 w1 h]
  · simp [(run_write_fails sys u global NewMD c config t f w0 w1 err h).1]

/-- C9: when the write of the content file fails, `createNewContent` stops
there: its only effects are the opening log line and the one
`filesystem.Create` call for the content file (no template search, no read
from standard input, no template write, no editor launch), and the returned
error message contains the destination path and the underlying error. -/
theorem createNewContent_write_failure_stops (w0 w1 : σ) (err : Str)
    (h : sys.Create (destination u config t f) (body u global NewMD t f) w0 = (some err, w1)) :
    (createNewContent sys u global NewMD c config t f w0).trace =
        [Event.log .info "Creating new %s in %s".toList [contentTypeOf t, config.ContentDirectory],
         Event.create (Join [config.ContentDirectory, t, (processFileName u f).1])
           (body u global NewMD t f)] ∧
    searches (createNewContent sys u global NewMD c config t f w0).trace = [] ∧
    reads (createNewContent sys u global NewMD c config t f w0).trace = 0 ∧
    creates (createNewContent sys u global NewMD c config t f w0).trace =
        [(Join [config.ContentDirectory, t, (processFileName u f).1], body u global NewMD t f)] ∧
    launches (createNewContent sys u global NewMD c config t f w0).trace = [] ∧
    ∃ msg, (createNewContent sys u global NewMD c config t f w0).result = some msg ∧
      Join [config.ContentDirectory, t, (processFileName u f).1] <:+: msg ∧ err <:+: msg := by
  obtain ⟨hr, ht⟩ := run_write_fails sys u global NewMD c config t f w0 w1 err h
  rw [ht, hr]
  refine ⟨rfl, rfl, rfl, rfl, rfl, _, rfl, ?_, ?_⟩
  · exact ⟨"failed to create ".toList, ": ".toList ++ err, by simp [destination]⟩
  · exact ⟨"failed to create ".toList ++ destination u config t f ++ ": ".toList, [], by simp⟩

theorem createNewContent_write_failure_stops_witness :
    (createNewContent (scripted writeDenied) asciiData sampleConfig sampleNewMD emptyCommand sampleConfig
        "blog".toList "my-first-post".toList 0).trace =
      [Event.log .info "Creating new %s in %s".toList ["blog".toList, "content".toList],
       Event.create "content/blog/my-first-post.md".toList
         "title: My First Post\ntype: blog\nauthor: Ann\n# My First Post\n".toList] ∧
    launches (createNewContent (scripted writeDenied) asciiData sampleConfig sampleNewMD emptyCommand
        sampleConfig "blog".toList "my-first-post".toList 0).trace = [] :=
  have h := createNewContent_write_failure_stops (scripted writeDenied) asciiData sampleConfig sampleNewMD
    emptyCommand sampleConfig "blog".toList "my-first-post".toList 0 1
    "permission denied".toList rfl
  ⟨h.1, h.2.2.2.2.1⟩

/-- C6: after a successful content write and a template search that ends
without error and finds nothing, the line read from standard input decides:
the template is written, to `template/<label>.tmpl` with body
`DefaultTemplate_` followed by the theme, exactly when the line, trimmed and
lower-cased, is `yes` or empty (an empty line and ` YES ` accept; `no` and
`y` decline). When the template is found, nothing is read and no template is
written. -/
theorem template_written_iff_accepted :
    (∀ (w0 w1 w2 w3 : σ) (line : Str),
      sys.Create (destination u config t f) (body u global NewMD t f) w0 = (none, w1) →
      sys.ExistsRecursive (contentTypeOf t ++ ".tmpl".toList) "template".toList w1 =
        ((false, none), w2) →
      sys.ReadString w2 = ((line, none), w3) →
      (creates (createNewContent sys u global NewMD c config t f w0).trace =
        (destination u config t f, body u global NewMD t f) ::
          (if ToLower (TrimSpace line) = "yes".toList ∨ ToLower (TrimSpace line) = [] then
            [("template/".toList ++ (contentTypeOf t ++ ".tmpl".toList),
              "DefaultTemplate_".toList ++ config.Theme)]
           else []))) ∧
    (∀ (w0 w1 w2 : σ),
      sys.Create (destination u config t f) (body u global NewMD t f) w0 = (none, w1) →
      sys.ExistsRecursive (contentTypeOf t ++ ".tmpl".toList) "template".toList w1 =
        ((true, none), w2) →
      reads (createNewContent sys u global NewMD c config t f w0).trace = 0 ∧
      creates (createNewContent sys u global NewMD c config t f w0).trace =
        [(destination u config t f, body u global NewMD t f)]) ∧
    (accepts "\n".toList ∧ accepts " YES \r\n".toList ∧ accepts "yes\n".toList ∧
      ¬ accepts "no\n".toList ∧ ¬ accepts "y\n".toList ∧ ¬ accepts "yes please\n".toList) := by
  refine ⟨?_, ?_, by decide⟩
  · intro w0 w1 w2 w3 line h1 h2 h3
    by_cases h4 : accepts line
    · have h4a : ToLower (TrimSpace line) = "yes".toList ∨ ToLower (TrimSpace line) = [] := h4
      rcases h5 : sys.Create ("template/".toList ++ templateName t)
        ("DefaultTemplate_".toList ++ config.Theme) w3 with ⟨_ | err, w4⟩
      · rw [(run_template_created sys u global NewMD c config t f w0 w1 w2 w3 w4 line h1 h2 h3 h4
          h5).2.1, if_pos h4a]
        rfl
      · rw [(run_template_fails sys u global NewMD c config t f w0 w1 w2 w3 w4 line err h1 h2 h3
          h4 h5).2.1, if_pos h4a]
        rfl
    · have h4a : ¬ (ToLower (TrimSpace line) = "yes".toList ∨ ToLower (TrimSpace line) = []) :=
        h4
      rw [(run_declined sys u global NewMD c config t f w0 w1 w2 w3 line h1 h2 h3 h4).2.1,
        if_neg h4a]
  · intro w0 w1 w2 h1 h2
    have h := run_found sys u global NewMD c config t f w0 w1 w2 h1 h2
    exact ⟨h.2.2.1, h.2.1⟩

theorem template_written_iff_accepted_witness :
    creates (createNewContent (scripted (answering "\n".toList)) asciiData sampleConfig sampleNewMD
        emptyCommand sampleConfig "blog".toList "my-first-post".toList 0).trace =
      [("content/blog/my-first-post.md".toList,
        "title: My First Post\ntype: blog\nauthor: Ann\n# My First Post\n".toList),
       ("template/blog.tmpl".toList, "DefaultTemplate_none".toList)] ∧
    creates (createNewContent (scripted (answering "no\n".toList)) asciiData sampleConfig sampleNewMD
        emptyCommand sampleConfig "blog".toList "my-first-post".toList 0).trace =
      [("content/blog/my-first-post.md".toList,
        "title: My First Post\ntype: blog\nauthor: Ann\n# My First Post\n".toList)] :=
  ⟨(template_written_iff_accepted (scripted (answering "\n".toList)) asciiData sampleConfig sampleNewMD
      emptyCommand sampleConfig "blog".toList "my-first-post".toList).1 0 1 1 1 "\n".toList
      rfl rfl rfl,
   (template_written_iff_accepted (scripted (answering "no\n".toList)) asciiData sampleConfig sampleNewMD
      emptyCommand sampleConfig "blog".toList "my-first-post".toList).1 0 1 1 1 "no\n".toList
      rfl rfl rfl⟩

/-- C4, claim as stated refuted: the content write succeeds and the editor
is `vim`, but the template search fails, and `createNewContent` returns
before the editor step: no program is launched. -/
theorem editor_not_launched_after_search_error :
    (scripted searchBroken).Create (destination asciiData sampleConfig "blog".toList "my-first-post".toList)
        (body asciiData sampleConfig sampleNewMD "blog".toList "my-first-post".toList) 0 = (none, 1) ∧
    sampleConfig.Editor ≠ [] ∧ sampleConfig.Editor ≠ "none".toList ∧
    launches (createNewContent (scripted searchBroken) asciiData sampleConfig sampleNewMD emptyCommand
        sampleConfig "blog".toList "my-first-post".toList 0).trace = [] ∧
    launches (createNewContent (scripted searchBroken) asciiData sampleConfig sampleNewMD emptyCommand
        sampleConfig "blog".toList "my-first-post".toList 0).trace ≠
      [("vim".toList, ["content/blog/my-first-post.md".toList])] := by
  refine ⟨rfl, by decide, by decide, rfl, ?_⟩
  have h : launches (createNewContent (scripted searchBroken) asciiData sampleConfig sampleNewMD
      emptyCommand sampleConfig "blog".toList "my-first-post".toList 0).trace = [] := rfl
  rw [h]
  exact List.noConfusion

/-- C4, amended: after a successful content write, with an editor that is
neither empty nor `none`, the editor is launched exactly once, with the path
of the new content file as its sole argument, whenever the template stage
ends without error (template found; or not found and the offer declined; or
not found, accepted and the template written). When the template search, the
prompt read or the template write fails, `createNewContent` returns at once
and launches nothing. With an empty or `none` editor nothing is ever
launched. -/
theorem editor_launched_once_unless_template_stage_fails :
    (∀ (w0 w1 w2 : σ),
      sys.Create (destination u config t f) (body u global NewMD t f) w0 = (none, w1) →
      sys.ExistsRecursive (templateName t) "template".toList w1 = ((true, none), w2) →
      config.Editor ≠ [] → config.Editor ≠ "none".toList →
      launches (createNewContent sys u global NewMD c config t f w0).trace =
        [(config.Editor, [Join [config.ContentDirectory, t, (processFileName u f).1]])]) ∧
    (∀ (w0 w1 w2 w3 : σ) (line : Str),
      sys.Create (destination u config t f) (body u global NewMD t f) w0 = (none, w1) →
      sys.ExistsRecursive (templateName t) "template".toList w1 = ((false, none), w2) →
      sys.ReadString w2 = ((line, none), w3) →
      ¬ accepts line →
      config.Editor ≠ [] → config.Editor ≠ "none".toList →
      launches (createNewContent sys u global NewMD c config t f w0).trace =
        [(config.Editor, [Join [config.ContentDirectory, t, (processFileName u f).1]])]) ∧
    (∀ (w0 w1 w2 w3 w4 : σ) (line : Str),
      sys.Create (destination u config t f) (body u global NewMD t f) w0 = (none, w1) →
      sys.ExistsRecursive (templateName t) "template".toList w1 = ((false, none), w2) →
      sys.ReadString w2 = ((line, none), w3) →
      accepts line →
      sys.Create ("template/".toList ++ templateName t)
        ("DefaultTemplate_".toList ++ config.Theme) w3 = (none, w4) →
      config.Editor ≠ [] → config.Editor ≠ "none".toList →
      launches (createNewContent sys u global NewMD c config t f w0).trace =
        [(config.Editor, [Join [config.ContentDirectory, t, (processFileName u f).1]])]) ∧
    (∀ (w0 w1 w2 : σ) (found : Bool) (err : Str),
      sys.Create (destination u config t f) (body u global NewMD t f) w0 = (none, w1) →
      sys.ExistsRecursive (templateName t) "template".toList w1 = ((found, some err), w2) →
      launches (createNewContent sys u global NewMD c config t f w0).trace = []) ∧
    (∀ (w0 w1 w2 w3 : σ) (line err : Str),
      sys.Create (destination u config t f) (body u global NewMD t f) w0 = (none, w1) →
      sys.ExistsRecursive (templateName t) "template".toList w1 = ((false, none), w2) →
      sys.ReadString w2 = ((line, some err), w3) →
      launches (createNewContent sys u global NewMD c config t f w0).trace = []) ∧
    (∀ (w0 w1 w2 w3 w4 : σ) (line err : Str),
      sys.Create (destination u config t f) (body u global NewMD t f) w0 = (none, w1) →
      sys.ExistsRecursive (templateName t) "template".toList w1 = ((false, none), w2) →
      sys.ReadString w2 = ((line, none), w3) →
      accepts line →
      sys.Create ("template/".toList ++ templateName t)
        ("DefaultTemplate_".toList ++ config.Theme) w3 = (some err, w4) →
      launches (createNewContent sys u global NewMD c config t f w0).trace = []) ∧
    (∀ (w0 : σ), (config.Editor = [] ∨ config.Editor = "none".toList) →
      launches (createNewContent sys u global NewMD c config t f w0).trace = []) := by
  refine ⟨?_, ?_, ?_, ?_, ?_, ?_, ?_⟩
  · intro w0 w1 w2 h1 h2 e1 e2
    rw [(run_found sys u global NewMD c config t f w0 w1 w2 h1 h2).2.2.2, editorStep_launches,
      if_pos ⟨e1, e2⟩]
    rfl
  · intro w0 w1 w2 w3 line h1 h2 h3 h4 e1 e2
    rw [(run_declined sys u global NewMD c config t f w0 w1 w2 w3 line h1 h2 h3 h4).2.2.2,
      editorStep_launches, if_pos ⟨e1, e2⟩]
    rfl
  · intro w0 w1 w2 w3 w4 line h1 h2 h3 h4 h5 e1 e2
    rw [(run_template_created sys u global NewMD c config t f w0 w1 w2 w3 w4 line h1 h2 h3 h4
      h5).2.2.2, editorStep_launches, if_pos ⟨e1, e2⟩]
    rfl
  · intro w0 w1 w2 found err h1 h2
    exact (run_search_fails sys u global NewMD c config t f w0 w1 w2 found err h1 h2).2.2.2
  · intro w0 w1 w2 w3 line err h1 h2 h3
    exact (run_read_fails sys u global NewMD c config t f w0 w1 w2 w3 line err h1 h2 h3).2.2.2
  · intro w0 w1 w2 w3 w4 line err h1 h2 h3 h4 h5
    exact (run_template_fails sys u global NewMD c config t f w0 w1 w2 w3 w4 line err h1 h2 h3 h4
      h5).2.2.2
  · intro w0 hd
    rcases run_launches_cases sys u global NewMD c config t f w0 with h | ⟨w, h⟩
    · exact h
    · rw [h, editorStep_launches, if_neg]
      rintro ⟨e1, e2⟩
      rcases hd with hd | hd
      · exact e1 hd
      · exact e2 hd

theorem editor_launched_once_unless_template_stage_fails_witness :
    launches (createNewContent (scripted (answering "\n".toList)) asciiData sampleConfig sampleNewMD
        emptyCommand sampleConfig "blog/drafts".toList "draft1.html".toList 0).trace =
      [("vim".toList, ["content/blog/drafts/draft1.html".toList])] ∧
    launches (createNewContent (scripted templateFound) asciiData sampleConfig sampleNewMD
        emptyCommand sampleConfig "blog/drafts".toList "draft1.html".toList 0).trace =
      [("vim".toList, ["content/blog/drafts/draft1.html".toList])] :=
  ⟨(editor_launched_once_unless_template_stage_fails (scripted (answering "\n".toList))
      asciiData sampleConfig sampleNewMD emptyCommand sampleConfig "blog/drafts".toList
      "draft1.html".toList).2.2.1 0 1 1 1 2 "\n".toList rfl rfl rfl (by decide) rfl
      (by decide) (by decide),
   (editor_launched_once_unless_template_stage_fails (scripted templateFound)
      asciiData sampleConfig sampleNewMD emptyCommand sampleConfig "blog/drafts".toList
      "draft1.html".toList).1 0 1 1 rfl rfl (by decide) (by decide)⟩

/-- C8: the content type label derived in `createNewContent` is the part of
the type directory before its first `/` when it has one, and the whole string
otherwise. The label names the template (`<label>.tmpl`) and fills the content
type placeholder; the file is placed with the full type directory. -/
theorem contentType_is_first_segment (w0 : σ) :
    ('/' ∈ t → ∃ rest, t = contentTypeOf t ++ '/' :: rest ∧ '/' ∉ contentTypeOf t) ∧
    ('/' ∉ t → contentTypeOf t = t) ∧
    (creates (createNewContent sys u global NewMD c config t f w0).trace).head? =
      some (Join [config.ContentDirectory, t, (processFileName u f).1],
            defaultContent global NewMD (contentTypeOf t) (processFileName u f).2) ∧
    (∀ w1, sys.Create (destination u config t f) (body u global NewMD t f) w0 = (none, w1) →
      searches (createNewContent sys u global NewMD c config t f w0).trace =
        [(contentTypeOf t ++ ".tmpl".toList, "template".toList)]) := by
  refine ⟨?_, ?_, ?_, ?_⟩
  · intro h
    obtain ⟨rest, hr⟩ := takeWhile_ne_split '/' t h
    refine ⟨rest, ?_, ?_⟩
    · rw [contentTypeOf_eq_takeWhile]
      exact hr
    · rw [contentTypeOf_eq_takeWhile]
      exact not_mem_takeWhile_ne '/' t
  · intro h
    rw [contentTypeOf_eq_takeWhile, List.takeWhile_eq_self_iff]
    intro x hx
    simp only [ne_eq, decide_not, Bool.not_eq_eq_eq_not, Bool.not_true, decide_eq_false_iff_not]
    rintro rfl
    exact h hx
  · exact run_creates_head sys u global NewMD c config t f w0
  · intro w1 h1
    exact run_write_ok_searches sys u global NewMD c config t f w0 w1 h1

theorem contentType_is_first_segment_witness :
    (∃ rest, "blog/drafts/old".toList = "blog".toList ++ '/' :: rest) ∧
    contentTypeOf "blog".toList = "blog".toList ∧
    searches (createNewContent (scripted templateFound) asciiData sampleConfig sampleNewMD emptyCommand
        sampleConfig "blog/drafts/old".toList "draft1.html".toList 0).trace =
      [("blog.tmpl".toList, "template".toList)] :=
  have h := contentType_is_first_segment (scripted templateFound) asciiData sampleConfig sampleNewMD
    emptyCommand sampleConfig "blog/drafts/old".toList "draft1.html".toList 0
  have h0 := contentType_is_first_segment (scripted templateFound) asciiData sampleConfig sampleNewMD
    emptyCommand sampleConfig "blog".toList "draft1.html".toList 0
  ⟨(h.1 (by decide)).imp (fun _ hr => hr.1), h0.2.1 (by decide), h.2.2.2 1 rfl⟩

/-- C5, the code at the failing input: with the session root set to `site`
by `SetRootPath`, the session content directory is `site/content`, yet
`createNewContent` writes the content file to `content/blog/post.md`, which is
not under it; the `Command` record has no influence on the run at all. With an
empty root the two agree, and type `blog/drafts` with file `draft1.html`
gives `content/blog/drafts/draft1.html`. -/
theorem createNewContent_ignores_root_path :
    (SetRootPath sampleConfig emptyCommand "site".toList).contentDir = "site/content".toList ∧
    (creates (createNewContent (scripted templateFound) asciiData sampleConfig sampleNewMD
        (SetRootPath sampleConfig emptyCommand "site".toList) sampleConfig
        "blog".toList "post".toList 0).trace).map Prod.fst = ["content/blog/post.md".toList] ∧
    ¬ ((SetRootPath sampleConfig emptyCommand "site".toList).contentDir <+:
        "content/blog/post.md".toList) ∧
    (∀ c1 c2 : Command,
      createNewContent (scripted templateFound) asciiData sampleConfig sampleNewMD c1 sampleConfig
          "blog".toList "post".toList 0 =
        createNewContent (scripted templateFound) asciiData sampleConfig sampleNewMD c2 sampleConfig
          "blog".toList "post".toList 0) ∧
    (SetRootPath sampleConfig emptyCommand []).contentDir = "content".toList ∧
    (creates (createNewContent (scripted templateFound) asciiData sampleConfig sampleNewMD
        (SetRootPath sampleConfig emptyCommand []) sampleConfig
        "blog/drafts".toList "draft1.html".toList 0).trace).map Prod.fst =
      ["content/blog/drafts/draft1.html".toList] := by
  refine ⟨by decide, by decide, by decide, fun _ _ => rfl, by decide, by decide⟩

end Claims

/-! ## Sanity checks of the embedding -/

example : processFileName asciiData "my-first-post".toList =
    ("my-first-post.md".toList, "My First Post".toList) := by decide
example : processFileName asciiData "myPost.html".toList =
    ("myPost.html".toList, "Mypost".toList) := by decide
example : processFileName asciiData "a/b.c/notes_x.txt".toList =
    ("a/b.c/notes_x.txt.md".toList, "A/B.c/Notes X.txt".toList) := by decide

example : Join ["content".toList, "blog/drafts".toList, "draft1.html".toList] =
    "content/blog/drafts/draft1.html".toList := by decide
example : Join ["".toList, "content".toList] = "content".toList := by decide
example : Join ["/a/../../b/./c//d/..".toList, "".toList, "x".toList] = "/b/c/x".toList := by decide
example : Clean "../a/../../b".toList = "../../b".toList := by decide
example : Clean "a/b/../../..".toList = "..".toList := by decide
example : Split "blog/drafts/x".toList "/".toList = ["blog".toList, "drafts".toList, "x".toList] := by decide
example : Split "/a/".toList "/".toList = [[], "a".toList, []] := by decide

end Repose
